import Mathlib

/-!
# ics-wsproxy: the per-session proxy (`proxy.go`)

A shallow embedding of `Proxy` and of its three goroutines `wsReader`,
`icsReader` and `keepAlive`, together with `Shutdown` and `NewProxy`.

* The fields of the Go struct are the structure `Proxy`; a stop channel is
  represented by the flag "has been closed", the embedded `sync.Mutex` by its
  current holder.
* Every call on one of the two connections, every mutex operation and every
  `close` of a channel is appended to a log (`Shared.trace`), so that
  "how often" and "in which order" are statements about that log.
* `Shutdown` is given once as a function (the body of the Go method, run
  without interruption) and once statement by statement (`stepShutdown`), the
  form used by the goroutines of the interleaving semantics (`step`, `exec`).
* What the two connections answer (the result of a read or a write), the clock
  and the arrival of pongs are inputs of the semantics. The two libraries
  behind the connections are not part of the repository; the one fact about
  them that is used, what `ReadUntil` returns on a line without telnet
  commands, is the function `ReadUntil` below.
-/

namespace Wsproxy

/-! ## Constants -/

abbrev Byte := UInt8

/-- One `time.Second`, in nanoseconds (the unit of `time.Duration`). -/
def Second : Int := 1000000000

/-- The constant `timeout` of proxy.go ("dial timeout"): `5 * time.Second`. -/
def timeout : Int := 5 * Second

/-- The constant `keepAlive` of proxy.go ("keep alive timeout"): `80 * time.Second`. -/
def keepAlive : Int := 80 * Second

/-- Message type `websocket.TextMessage`. -/
def TextMessage : Nat := 1
/-- Message type `websocket.BinaryMessage`. -/
def BinaryMessage : Nat := 2
/-- Message type `websocket.CloseMessage`. -/
def CloseMessage : Nat := 8
/-- Message type `websocket.PingMessage`. -/
def PingMessage : Nat := 9

/-- The bytes of the Go string "keepalive", the payload of every ping. -/
def keepalivePayload : List Byte := [107, 101, 101, 112, 97, 108, 105, 118, 101]

/-- The delimiter byte of `ReadUntil("\n")`. -/
def LF : Byte := 10

/-- The telnet byte IAC ("interpret as command"), which starts every telnet
command sequence. -/
def IAC : Byte := 255

/-- Conversion of an integer to `int64` (two's complement wrap-around). -/
def wrapInt64 (x : Int) : Int := (x + 2 ^ 63) % 2 ^ 64 - 2 ^ 63

/-- Go's `Time.UnixNano`: a `time.Time` is taken as its number of nanoseconds
since the Unix epoch, and the result is that number as an `int64`. -/
def UnixNano (t : Int) : Int := wrapInt64 t

/-! ## Data model -/

/-- The three goroutines started by `NewProxy`. -/
inductive Duty
  | keepAlive
  | icsReader
  | wsReader
  deriving DecidableEq, Repr

/-- The three stop channels of a `Proxy`. -/
inductive Chan
  | keepAliveChannel
  | icsReaderChannel
  | wsReaderChannel
  deriving DecidableEq, Repr

/-- The browser connection `*websocket.Conn`, as far as the proxy changes it. -/
structure WsConn where
  /-- `Close` has been called. -/
  closed : Bool
  /-- A pong handler has been installed with `SetPongHandler`. -/
  pongHandler : Bool
  deriving DecidableEq, Repr

/-- The backend connection `*telnet.Conn`, as far as the proxy changes it. -/
structure IcsConn where
  /-- `Close` has been called (proxy.go never does). -/
  closed : Bool
  deriving DecidableEq, Repr

/-- The struct `Proxy`. A channel field is `true` once the channel is closed;
`mutex` is the goroutine holding the embedded `sync.Mutex`, if any. -/
structure Proxy where
  ws : WsConn
  ics : IcsConn
  keepAliveChannel : Bool
  icsReaderChannel : Bool
  wsReaderChannel : Bool
  shutdown : Bool
  mutex : Option Duty
  deriving DecidableEq, Repr

/-- One logged operation, with the goroutine that performed it. -/
inductive Event
  | lock (d : Duty)
  | unlock (d : Duty)
  | wsReadMessage (d : Duty)
  | wsWriteMessage (d : Duty) (messageType : Nat) (data : List Byte)
  | wsClose (d : Duty)
  | icsReadUntil (d : Duty)
  | icsWrite (d : Duty) (data : List Byte)
  | icsClose (d : Duty)
  | closeChan (d : Duty) (c : Chan)
  deriving DecidableEq, Repr

/-- Everything the goroutines of one session share: the `Proxy`, the clock,
the variable `lastResponse` of `keepAlive` (captured by the pong handler), the
log, and whether a run-time panic (closing a closed channel) has occurred. -/
structure Shared where
  p : Proxy
  now : Int
  lastResponse : Int
  trace : List Event
  panicked : Bool
  deriving DecidableEq, Repr

/-- What a call on a connection returns: success or an error. On success
`data` is the payload returned by `ReadMessage` (with its message type), or the
slice returned by `ReadUntil`; for a write both fields are ignored. -/
inductive Input
  | ok (messageType : Nat) (data : List Byte)
  | err
  deriving DecidableEq, Repr

/-- The `err != nil` of a result. -/
def Input.isErr : Input → Bool
  | .ok _ _ => false
  | .err => true

/-! ## Primitive operations -/

/-- Append an event to the log. -/
def Shared.log (e : Event) (s : Shared) : Shared :=
  { s with trace := s.trace ++ [e] }

/-- `p.Lock()`: possible only while nobody holds the mutex. -/
def Lock (d : Duty) (s : Shared) : Option Shared :=
  match s.p.mutex with
  | none => some ({ s with p := { s.p with mutex := some d } }.log (.lock d))
  | some _ => none

/-- `p.Unlock()`. -/
def Unlock (d : Duty) (s : Shared) : Shared :=
  { s with p := { s.p with mutex := none } }.log (.unlock d)

/-- `p.ws.WriteMessage(messageType, data)`: the attempt is logged; the result
is an input of the caller. -/
def wsWriteMessage (d : Duty) (messageType : Nat) (data : List Byte) (s : Shared) : Shared :=
  s.log (.wsWriteMessage d messageType data)

/-- `p.ws.Close()`. -/
def wsClose (d : Duty) (s : Shared) : Shared :=
  { s with p := { s.p with ws := { s.p.ws with closed := true } } }.log (.wsClose d)

/-- `p.ics.Write(msg)`. -/
def icsWrite (d : Duty) (msg : List Byte) (s : Shared) : Shared :=
  s.log (.icsWrite d msg)

/-- Whether a stop channel has been closed. -/
def Proxy.chanClosed (p : Proxy) : Chan → Bool
  | .keepAliveChannel => p.keepAliveChannel
  | .icsReaderChannel => p.icsReaderChannel
  | .wsReaderChannel => p.wsReaderChannel

/-- Mark a stop channel as closed. -/
def Proxy.setChanClosed (p : Proxy) : Chan → Proxy
  | .keepAliveChannel => { p with keepAliveChannel := true }
  | .icsReaderChannel => { p with icsReaderChannel := true }
  | .wsReaderChannel => { p with wsReaderChannel := true }

/-- The builtin `close(c)`: closing a channel that is already closed panics. -/
def closeChan (d : Duty) (c : Chan) (s : Shared) : Shared :=
  if s.p.chanClosed c then
    { s with panicked := true }.log (.closeChan d c)
  else
    { s with p := s.p.setChanClosed c }.log (.closeChan d c)

/-- The assignment `p.shutdown = true`. -/
def setShutdown (s : Shared) : Shared :=
  { s with p := { s.p with shutdown := true } }

/-- What `ReadUntil` does on the bytes received from the backend. -/
inductive ReadResult
  /-- The call returns `line`; `rest` stays unread. -/
  | line (line rest : List Byte)
  /-- The delimiter has not arrived yet: the call keeps waiting. -/
  | incomplete
  /-- A byte 255 comes before the delimiter. It starts a telnet command
  sequence, which the library's decoder interprets; that part of the library is
  not modelled. -/
  | command
  deriving DecidableEq, Repr

/-- The call `p.ics.ReadUntil("\n")` on the bytes received from the backend.
`ReadUntil` belongs to the library github.com/ziutek/telnet, not to this
repository; it is taken as that library documents and implements it, for
input free of telnet commands: bytes are read one at a time, a byte other
than 255 is data and is appended to the slice to be returned before it is
compared with the delimiter, and the call returns as soon as the byte just
appended is the delimiter. The returned slice therefore ends with the
delimiter. -/
def ReadUntil (delim : Byte) : List Byte → ReadResult
  | [] => .incomplete
  | b :: rest =>
    if b = IAC then .command
    else if b = delim then .line [b] rest
    else match ReadUntil delim rest with
      | .line line rest' => .line (b :: line) rest'
      | .incomplete => .incomplete
      | .command => .command

/-! ## Shutdown -/

/-- The method `Proxy.Shutdown`, called by goroutine `d`, run as a whole. The
result of writing the close frame is ignored, as in the source. `none` when
`p.Lock()` cannot be passed because the mutex is held. -/
def Shutdown (d : Duty) (s : Shared) : Option Shared :=
  match Lock d s with
  | none => none
  | some s =>
    let s :=
      if !s.p.shutdown then
        let s := wsWriteMessage d CloseMessage [] s
        let s := wsClose d s
        let s := closeChan d .wsReaderChannel s
        let s := closeChan d .icsReaderChannel s
        let s := closeChan d .keepAliveChannel s
        setShutdown s
      else s
    some (Unlock d s)

/-- Successive calls of `Shutdown`, one per listed caller, each run as a whole. -/
def ShutdownAll : List Duty → Shared → Option Shared
  | [], s => some s
  | d :: ds, s =>
    match Shutdown d s with
    | none => none
    | some s => ShutdownAll ds s

/-- Program points inside `Shutdown`: the statement to be executed next. -/
inductive SdPc
  | lock
  | check
  | writeClose
  | wsClose
  | closeWsReaderChannel
  | closeIcsReaderChannel
  | closeKeepAliveChannel
  | setFlag
  | unlock
  | ret
  deriving DecidableEq, Repr

/-- One statement of `Shutdown` executed by goroutine `d`. -/
def stepShutdown (d : Duty) (pc : SdPc) (s : Shared) : Option (SdPc × Shared) :=
  match pc with
  | .lock => (Lock d s).map fun s => (.check, s)
  | .check => if !s.p.shutdown then some (.writeClose, s) else some (.unlock, s)
  | .writeClose => some (.wsClose, wsWriteMessage d CloseMessage [] s)
  | .wsClose => some (.closeWsReaderChannel, wsClose d s)
  | .closeWsReaderChannel => some (.closeIcsReaderChannel, closeChan d .wsReaderChannel s)
  | .closeIcsReaderChannel => some (.closeKeepAliveChannel, closeChan d .icsReaderChannel s)
  | .closeKeepAliveChannel => some (.setFlag, closeChan d .keepAliveChannel s)
  | .setFlag => some (.unlock, setShutdown s)
  | .unlock => some (.ret, Unlock d s)
  | .ret => none

/-! ## The three goroutines -/

/-- Program points of `wsReader`. -/
inductive WsPc
  | select
  | readMessage
  | write (msg : List Byte)
  | shutdown (k : SdPc)
  | done
  deriving DecidableEq, Repr

/-- One statement of `wsReader`. `i` is the result of the connection call, if
the statement is one. -/
def stepWsReader (pc : WsPc) (i : Input) (s : Shared) : Option (WsPc × Shared) :=
  match pc with
  | .select =>
    if s.p.wsReaderChannel then some (.done, s) else some (.readMessage, s)
  | .readMessage =>
    match i with
    | .ok _ msg => some (.write msg, s.log (.wsReadMessage .wsReader))
    | .err => some (.shutdown .lock, s.log (.wsReadMessage .wsReader))
  | .write msg =>
    match i with
    | .ok _ _ => some (.select, icsWrite .wsReader msg s)
    | .err => some (.shutdown .lock, icsWrite .wsReader msg s)
  | .shutdown k =>
    match stepShutdown .wsReader k s with
    | some (.ret, s) => some (.done, s)
    | some (k, s) => some (.shutdown k, s)
    | none => none
  | .done => none

/-- Program points of `icsReader`. -/
inductive IcsPc
  | select
  | readUntil
  | lock (msg : List Byte)
  | writeMessage (msg : List Byte)
  | unlock (err : Bool)
  | shutdown (k : SdPc)
  | done
  deriving DecidableEq, Repr

/-- One statement of `icsReader`. `i` is the result of the connection call, if
the statement is one: for `ReadUntil` the slice it returned. -/
def stepIcsReader (pc : IcsPc) (i : Input) (s : Shared) : Option (IcsPc × Shared) :=
  match pc with
  | .select =>
    if s.p.icsReaderChannel then some (.done, s) else some (.readUntil, s)
  | .readUntil =>
    match i with
    | .ok _ msg => some (.lock msg, s.log (.icsReadUntil .icsReader))
    | .err => some (.shutdown .lock, s.log (.icsReadUntil .icsReader))
  | .lock msg => (Lock .icsReader s).map fun s => (.writeMessage msg, s)
  | .writeMessage msg =>
    some (.unlock i.isErr, wsWriteMessage .icsReader TextMessage msg s)
  | .unlock err =>
    if err then some (.shutdown .lock, Unlock .icsReader s)
    else some (.select, Unlock .icsReader s)
  | .shutdown k =>
    match stepShutdown .icsReader k s with
    | some (.ret, s) => some (.done, s)
    | some (k, s) => some (.shutdown k, s)
    | none => none
  | .done => none

/-- Program points of `keepAlive`. `sleeping wake` is inside `time.Sleep`,
which returns no earlier than `wake`. -/
inductive KaPc
  | start
  | setPongHandler
  | select
  | lock
  | writeMessage
  | unlock (err : Bool)
  | sleep
  | sleeping (wake : Int)
  | check
  | shutdown (k : SdPc)
  | done
  deriving DecidableEq, Repr

/-- One statement of `keepAlive`. -/
def stepKeepAlive (pc : KaPc) (i : Input) (s : Shared) : Option (KaPc × Shared) :=
  match pc with
  | .start => some (.setPongHandler, { s with lastResponse := UnixNano s.now })
  | .setPongHandler =>
    some (.select, { s with p := { s.p with ws := { s.p.ws with pongHandler := true } } })
  | .select =>
    if s.p.keepAliveChannel then some (.done, s) else some (.lock, s)
  | .lock => (Lock .keepAlive s).map fun s => (.writeMessage, s)
  | .writeMessage =>
    some (.unlock i.isErr, wsWriteMessage .keepAlive PingMessage keepalivePayload s)
  | .unlock err =>
    if err then some (.shutdown .lock, Unlock .keepAlive s)
    else some (.sleep, Unlock .keepAlive s)
  | .sleep => some (.sleeping (s.now + keepAlive / 2), s)
  | .sleeping wake => if wake ≤ s.now then some (.check, s) else none
  | .check =>
    if s.lastResponse < UnixNano (s.now - timeout) then some (.shutdown .lock, s)
    else some (.select, s)
  | .shutdown k =>
    match stepShutdown .keepAlive k s with
    | some (.ret, s) => some (.done, s)
    | some (k, s) => some (.shutdown k, s)
    | none => none
  | .done => none

/-! ## Interleaving semantics -/

/-- A running session: the shared state and the program point of each goroutine. -/
structure State where
  sh : Shared
  kaPc : KaPc
  icsPc : IcsPc
  wsPc : WsPc
  deriving DecidableEq, Repr

/-- One atomic action of a session: goroutine `d` executes its next statement
(with the connection's answer `i`), the browser's pong arrives, or the clock
advances. -/
inductive Action
  | run (d : Duty) (i : Input)
  | pong
  | tick (dt : Nat)
  deriving DecidableEq, Repr

/-- The pong handler installed by `keepAlive`. -/
def pongHandler (s : Shared) : Shared :=
  { s with lastResponse := UnixNano s.now }

/-- The effect of one action; `none` when the action is not possible in this
state (a blocked or finished goroutine, or after a panic). A pong is
processed inside `ReadMessage`, hence while `wsReader` is reading. -/
def step (a : Action) (s : State) : Option State :=
  if s.sh.panicked then none else
  match a with
  | .run .keepAlive i =>
    (stepKeepAlive s.kaPc i s.sh).map fun r => { s with kaPc := r.1, sh := r.2 }
  | .run .icsReader i =>
    (stepIcsReader s.icsPc i s.sh).map fun r => { s with icsPc := r.1, sh := r.2 }
  | .run .wsReader i =>
    (stepWsReader s.wsPc i s.sh).map fun r => { s with wsPc := r.1, sh := r.2 }
  | .pong =>
    if s.wsPc = .readMessage then
      some (if s.sh.p.ws.pongHandler then { s with sh := pongHandler s.sh } else s)
    else none
  | .tick dt => some { s with sh := { s.sh with now := s.sh.now + dt } }

/-- Execute a sequence of actions. -/
def exec : List Action → State → Option State
  | [], s => some s
  | a :: as, s =>
    match step a s with
    | none => none
    | some s => exec as s

/-! ## Construction -/

abbrev Error := String

/-- What `NewProxy` returns and does: the two return values, the channels it
allocated with `make` and the goroutines it started with `go`, in order. -/
structure NewProxyResult where
  proxy : Option Proxy
  err : Option Error
  made : List Chan
  started : List Duty
  deriving DecidableEq, Repr

/-- The function `NewProxy`. `dial` is the result of
`telnet.DialTimeout("tcp", addr, timeout)`. -/
def NewProxy (dial : Except Error IcsConn) (ws : WsConn) : NewProxyResult :=
  match dial with
  | .error err => { proxy := none, err := some err, made := [], started := [] }
  | .ok ics =>
    { proxy := some
        { ws := ws
          ics := ics
          keepAliveChannel := false
          icsReaderChannel := false
          wsReaderChannel := false
          shutdown := false
          mutex := none }
      err := none
      made := [.keepAliveChannel, .icsReaderChannel, .wsReaderChannel]
      started := [.keepAlive, .icsReader, .wsReader] }

/-- The shared state of a session right after `NewProxy` returned `p` at time
`now`: nothing has been logged yet. -/
def Shared.init (p : Proxy) (now : Int) : Shared :=
  { p := p, now := now, lastResponse := 0, trace := [], panicked := false }

/-- The session right after `NewProxy` returned `p` at time `now`: the three
goroutines are at their first statement. -/
def State.init (p : Proxy) (now : Int) : State :=
  { sh := Shared.init p now
    kaPc := .start
    icsPc := .select
    wsPc := .select }

/-- A freshly accepted browser connection. -/
def WsConn.fresh : WsConn := { closed := false, pongHandler := false }

/-- A freshly dialled backend connection. -/
def IcsConn.fresh : IcsConn := { closed := false }

/-- The `Proxy` built by a successful `NewProxy` on fresh connections. -/
def Proxy.fresh : Proxy :=
  { ws := WsConn.fresh
    ics := IcsConn.fresh
    keepAliveChannel := false
    icsReaderChannel := false
    wsReaderChannel := false
    shutdown := false
    mutex := none }

/-! ## Reading the log -/

/-- Number of `Close` calls on the browser connection. -/
def wsCloses (tr : List Event) : Nat :=
  tr.countP fun e => match e with
    | .wsClose _ => true
    | _ => false

/-- Number of `Close` calls on the backend connection. -/
def icsCloses (tr : List Event) : Nat :=
  tr.countP fun e => match e with
    | .icsClose _ => true
    | _ => false

/-- Number of `close` calls on stop channel `c`. -/
def chanCloses (c : Chan) (tr : List Event) : Nat :=
  tr.countP fun e => match e with
    | .closeChan _ c' => decide (c' = c)
    | _ => false

/-- Number of close frames written to the browser connection. -/
def closeFrames (tr : List Event) : Nat :=
  tr.countP fun e => match e with
    | .wsWriteMessage _ t _ => decide (t = CloseMessage)
    | _ => false

/-- The frames written to the browser connection, in order. -/
def wsFrames : List Event → List (Nat × List Byte)
  | [] => []
  | .wsWriteMessage _ t data :: tr => (t, data) :: wsFrames tr
  | _ :: tr => wsFrames tr

/-- The byte slices written to the backend connection, in order. -/
def icsWrites : List Event → List (List Byte)
  | [] => []
  | .icsWrite _ data :: tr => data :: icsWrites tr
  | _ :: tr => icsWrites tr

/-! ## Runs of a single goroutine -/

/-- Goroutine `d` alone executes its next statements, one per listed input. -/
def runDuty (d : Duty) (is : List Input) (s : State) : Option State :=
  exec (is.map (Action.run d)) s

/-- The bytes of "Hello, world!". -/
def helloWorld : List Byte := [72, 101, 108, 108, 111, 44, 32, 119, 111, 114, 108, 100, 33]

/-! ## Regions, the mutex and the invariant -/

/-- Where a goroutine stands with respect to the mutex and to the body of
`Shutdown`: not holding the mutex; holding it outside the guarded body; or
inside the body, before the first, second, third `close` or before the
assignment of the flag. -/
inductive Region
  | idle
  | held
  | body0
  | body1
  | body2
  | body3
  deriving DecidableEq, Repr

/-- The region of a program point of `Shutdown`. -/
def SdPc.region : SdPc → Region
  | .lock => .idle
  | .check => .held
  | .writeClose => .body0
  | .wsClose => .body0
  | .closeWsReaderChannel => .body0
  | .closeIcsReaderChannel => .body1
  | .closeKeepAliveChannel => .body2
  | .setFlag => .body3
  | .unlock => .held
  | .ret => .idle

/-- The region of a program point of `keepAlive`. -/
def KaPc.region : KaPc → Region
  | .writeMessage => .held
  | .unlock _ => .held
  | .shutdown k => k.region
  | _ => .idle

/-- The region of a program point of `icsReader`. -/
def IcsPc.region : IcsPc → Region
  | .writeMessage _ => .held
  | .unlock _ => .held
  | .shutdown k => k.region
  | _ => .idle

/-- The region of a program point of `wsReader`. -/
def WsPc.region : WsPc → Region
  | .shutdown k => k.region
  | _ => .idle

/-- The region of goroutine `d` in a state. -/
def State.region (s : State) : Duty → Region
  | .keepAlive => s.kaPc.region
  | .icsReader => s.icsPc.region
  | .wsReader => s.wsPc.region

/-- The flag and the stop channels outside the body of `Shutdown`: flag clear
and all channels open, or flag set and all channels closed. -/
def Steady (p : Proxy) : Prop :=
  (p.shutdown = false ∧ p.wsReaderChannel = false ∧ p.icsReaderChannel = false ∧
    p.keepAliveChannel = false) ∨
  (p.shutdown = true ∧ p.wsReaderChannel = true ∧ p.icsReaderChannel = true ∧
    p.keepAliveChannel = true)

/-- What a goroutine in a given region may assume of the flag and the channels. -/
def Region.ok : Region → Proxy → Prop
  | .idle, _ => True
  | .held, p => Steady p
  | .body0, p => p.shutdown = false ∧ p.wsReaderChannel = false ∧ p.icsReaderChannel = false ∧
      p.keepAliveChannel = false
  | .body1, p => p.shutdown = false ∧ p.wsReaderChannel = true ∧ p.icsReaderChannel = false ∧
      p.keepAliveChannel = false
  | .body2, p => p.shutdown = false ∧ p.wsReaderChannel = true ∧ p.icsReaderChannel = true ∧
      p.keepAliveChannel = false
  | .body3, p => p.shutdown = false ∧ p.wsReaderChannel = true ∧ p.icsReaderChannel = true ∧
      p.keepAliveChannel = true

/-- Replay of a log against the mutex: starting with holder `h`, every `lock`
must find the mutex free, every `unlock` must be by the holder, and every frame
written to the browser connection must be written by the holder. The result is
the holder at the end, or `none` if the log breaks one of these rules. -/
def lockDiscipline : Option Duty → List Event → Option (Option Duty)
  | h, [] => some h
  | h, .lock d :: tr => if h = none then lockDiscipline (some d) tr else none
  | h, .unlock d :: tr => if h = some d then lockDiscipline none tr else none
  | h, .wsWriteMessage d _ _ :: tr => if h = some d then lockDiscipline h tr else none
  | h, _ :: tr => lockDiscipline h tr

/-- The invariant of a session, as seen by goroutine `d` in region `r`: no
panic; `d` is in a region other than `idle` exactly when it holds the mutex;
the flag and the channels are as the region requires, and as they are outside
the body of `Shutdown` when the mutex is free; and the log obeys the mutex. -/
structure LocalInv (d : Duty) (r : Region) (s : Shared) : Prop where
  noPanic : s.panicked = false
  holder : r ≠ .idle ↔ s.p.mutex = some d
  ok : r.ok s.p
  free : s.p.mutex = none → Steady s.p
  locks : lockDiscipline none s.trace = some s.p.mutex

/-- What a statement of goroutine `d` leaves alone: whether another goroutine
holds the mutex, and, unless `d` holds the mutex, the flag and the channels. -/
structure Frame (d : Duty) (s s' : Shared) : Prop where
  others : ∀ e, e ≠ d → (s'.p.mutex = some e ↔ s.p.mutex = some e)
  flags : s.p.mutex = some d ∨
    (s'.p.shutdown = s.p.shutdown ∧ s'.p.wsReaderChannel = s.p.wsReaderChannel ∧
      s'.p.icsReaderChannel = s.p.icsReaderChannel ∧
      s'.p.keepAliveChannel = s.p.keepAliveChannel)

/-- The invariant of a session: it holds as seen by each goroutine. -/
def Inv (s : State) : Prop := ∀ d, LocalInv d (s.region d) s.sh

/-! ## Accounting of writes -/

/-- Number of writes by goroutine `d` in a log: frames written to the browser
connection and byte slices written to the backend connection. -/
def writesBy (d : Duty) (tr : List Event) : Nat :=
  tr.countP fun e => match e with
    | .wsWriteMessage d' _ _ => decide (d' = d)
    | .icsWrite d' _ => decide (d' = d)
    | _ => false

/-- Whether `keepAlive`, at this program point, is in an iteration that has yet
to write its ping: 1 if so, 0 otherwise. -/
def KaPc.pendingWrites : KaPc → Nat
  | .lock => 1
  | .writeMessage => 1
  | _ => 0

/-- Whether `icsReader` is in an iteration that has yet to write its frame. -/
def IcsPc.pendingWrites : IcsPc → Nat
  | .readUntil => 1
  | .lock _ => 1
  | .writeMessage _ => 1
  | _ => 0

/-- Whether `wsReader` is in an iteration that has yet to write to the backend. -/
def WsPc.pendingWrites : WsPc → Nat
  | .readMessage => 1
  | .write _ => 1
  | _ => 0

/-- The write goroutine `d` may still owe from an iteration in progress. -/
def State.pendingWrites (s : State) : Duty → Nat
  | .keepAlive => s.kaPc.pendingWrites
  | .icsReader => s.icsPc.pendingWrites
  | .wsReader => s.wsPc.pendingWrites

/-- An execution in which `wsReader` reads the frame "hi", `icsReader` starts
a read, and `keepAlive`, whose ping fails, runs `Shutdown` to the end. -/
def shutdownByKeepAlive : List Action :=
  [.run .wsReader (.ok 0 []), .run .wsReader (.ok TextMessage [104, 105]),
    .run .icsReader (.ok 0 []), .run .keepAlive (.ok 0 []), .run .keepAlive (.ok 0 []),
    .run .keepAlive (.ok 0 []), .run .keepAlive (.ok 0 []), .run .keepAlive .err,
    .run .keepAlive (.ok 0 [])] ++ List.replicate 9 (.run .keepAlive (.ok 0 []))

/-! ## The clock of the liveness probe -/

/-- What holds of the clock and of `lastResponse` as long as no pong has been
processed, in a session created at time `now0`: once `keepAlive` has stored its
start time `t0`, `lastResponse` is `t0` (as an `int64`), the sleep ends no
earlier than `t0 + keepAlive / 2`, and so does the staleness check. -/
def Unanswered (now0 : Int) (s : State) : Prop :=
  now0 ≤ s.sh.now ∧
  (s.kaPc ≠ .start → ∃ t0, now0 ≤ t0 ∧ t0 ≤ s.sh.now ∧
    s.sh.lastResponse = UnixNano t0 ∧
    (∀ w, s.kaPc = .sleeping w → t0 + keepAlive / 2 ≤ w) ∧
    (s.kaPc = .check → t0 + keepAlive / 2 ≤ s.sh.now))

/-- The execution of `keepAlive` alone up to its first staleness check, the
ping being written without error after a delay `e` and the clock advancing by
`dt` during the sleep. -/
def firstProbe (e dt : Nat) : List Action :=
  [.run .keepAlive (.ok 0 []), .run .keepAlive (.ok 0 []), .run .keepAlive (.ok 0 []),
    .run .keepAlive (.ok 0 []), .tick e, .run .keepAlive (.ok 0 []),
    .run .keepAlive (.ok 0 []), .run .keepAlive (.ok 0 []), .tick dt,
    .run .keepAlive (.ok 0 [])]

/-- An execution with a responsive browser: `keepAlive` sends its ping at time
0, `wsReader` is reading, the pong is processed one second later, the sleep
ends at 40 s and the staleness check follows. -/
def responsivePeer : List Action :=
  [.run .keepAlive (.ok 0 []), .run .keepAlive (.ok 0 []), .run .keepAlive (.ok 0 []),
    .run .keepAlive (.ok 0 []), .run .keepAlive (.ok 0 []), .run .keepAlive (.ok 0 []),
    .run .keepAlive (.ok 0 []), .run .wsReader (.ok 0 []), .tick 1000000000, .pong,
    .tick 39000000000, .run .keepAlive (.ok 0 []), .run .keepAlive (.ok 0 [])]

/-! ## Leaving the loop -/

/-- Whether `keepAlive` stands at a call on a connection. -/
def KaPc.atCall : KaPc → Bool
  | .writeMessage => true
  | _ => false

/-- Whether `icsReader` stands at a call on a connection. -/
def IcsPc.atCall : IcsPc → Bool
  | .readUntil => true
  | .writeMessage _ => true
  | _ => false

/-- Whether `wsReader` stands at a call on a connection. -/
def WsPc.atCall : WsPc → Bool
  | .readMessage => true
  | .write _ => true
  | _ => false

/-- Whether goroutine `d` stands at a read or a write on a connection. -/
def State.atCall (s : State) : Duty → Bool
  | .keepAlive => s.kaPc.atCall
  | .icsReader => s.icsPc.atCall
  | .wsReader => s.wsPc.atCall

/-- Whether `keepAlive` has left its loop for good: it stands at the `Unlock`
after a failed write, inside the `Shutdown` it has called, or it has
returned. -/
def KaPc.leaving : KaPc → Bool
  | .unlock true => true
  | .shutdown _ => true
  | .done => true
  | _ => false

/-- Whether `icsReader` has left its loop for good. -/
def IcsPc.leaving : IcsPc → Bool
  | .unlock true => true
  | .shutdown _ => true
  | .done => true
  | _ => false

/-- Whether `wsReader` has left its loop for good. -/
def WsPc.leaving : WsPc → Bool
  | .shutdown _ => true
  | .done => true
  | _ => false

/-- Whether goroutine `d` has left its loop for good. -/
def State.leaving (s : State) : Duty → Bool
  | .keepAlive => s.kaPc.leaving
  | .icsReader => s.icsPc.leaving
  | .wsReader => s.wsPc.leaving

/-- Whether goroutine `d` has returned. -/
def State.returned (s : State) : Duty → Bool
  | .keepAlive => decide (s.kaPc = .done)
  | .icsReader => decide (s.icsPc = .done)
  | .wsReader => decide (s.wsPc = .done)

/-- Number of `p.Lock()` that `keepAlive`, having left its loop, has yet to
execute: one, the first statement of `Shutdown`, until it has executed it. -/
def KaPc.locksAhead : KaPc → Nat
  | .unlock true => 1
  | .shutdown .lock => 1
  | _ => 0

/-- Number of `p.Lock()` that `icsReader`, having left its loop, has yet to
execute. -/
def IcsPc.locksAhead : IcsPc → Nat
  | .unlock true => 1
  | .shutdown .lock => 1
  | _ => 0

/-- Number of `p.Lock()` that `wsReader`, having left its loop, has yet to
execute. -/
def WsPc.locksAhead : WsPc → Nat
  | .shutdown .lock => 1
  | _ => 0

/-- Number of `p.Lock()` that goroutine `d`, having left its loop, has yet to
execute. -/
def State.locksAhead (s : State) : Duty → Nat
  | .keepAlive => s.kaPc.locksAhead
  | .icsReader => s.icsPc.locksAhead
  | .wsReader => s.wsPc.locksAhead

/-- Number of operations of goroutine `d`'s own loop in a log: reads, writes to
the backend, and frames other than the close frame of `Shutdown`. -/
def ownOps (d : Duty) (tr : List Event) : Nat :=
  tr.countP fun e => match e with
    | .wsReadMessage d' => decide (d' = d)
    | .icsReadUntil d' => decide (d' = d)
    | .icsWrite d' _ => decide (d' = d)
    | .wsWriteMessage d' t _ => decide (d' = d) && !decide (t = CloseMessage)
    | _ => false

/-- Number of `p.Lock()` by goroutine `d` in a log. -/
def locksBy (d : Duty) (tr : List Event) : Nat :=
  tr.countP fun e => match e with
    | .lock d' => decide (d' = d)
    | _ => false

/-- The call of `Shutdown` by goroutine `d`, continued statement by statement
from program point `k` to its return, other goroutines standing still; `n`
bounds the number of statements. -/
def runShutdown (d : Duty) : Nat → SdPc → Shared → Option Shared
  | 0, _, _ => none
  | n + 1, k, s =>
    if s.panicked then none else
    match stepShutdown d k s with
    | none => none
    | some (k', s') => if k' = .ret then some s' else runShutdown d n k' s'

/-- Whether goroutine `d` stands at the first statement of `Shutdown`. -/
def State.entering (s : State) : Duty → Bool
  | .keepAlive => decide (s.kaPc = .shutdown .lock)
  | .icsReader => decide (s.icsPc = .shutdown .lock)
  | .wsReader => decide (s.wsPc = .shutdown .lock)

/-- Whether a fake clock allows an action: such a clock advances only while
`keepAlive` is inside `time.Sleep`, and not beyond the end of the sleep. -/
def fakeClockAllows (a : Action) (s : State) : Bool :=
  match a, s.kaPc with
  | .tick dt, .sleeping wake => decide (s.sh.now + dt ≤ wake)
  | .tick _, _ => false
  | _, _ => true

/-- Whether an execution runs on a fake clock. -/
def onFakeClock : List Action → State → Bool
  | [], _ => true
  | a :: as, s =>
    fakeClockAllows a s &&
      match step a s with
      | some s' => onFakeClock as s'
      | none => true

/-- What holds on a fake clock as long as no pong has been processed, in a
session created at `now0`: the clock stands at `now0` until `keepAlive` sleeps,
`lastResponse` is `now0` (as an `int64`) once stored, the sleep ends at
`now0 + keepAlive / 2`, and the clock never passes that time. -/
def FakeProbe (now0 : Int) (s : State) : Prop :=
  now0 ≤ s.sh.now ∧ s.sh.now ≤ now0 + keepAlive / 2 ∧
  (s.kaPc ≠ .start → s.sh.lastResponse = UnixNano now0) ∧
  match s.kaPc with
  | .sleeping wake => wake = now0 + keepAlive / 2
  | .check => s.sh.now = now0 + keepAlive / 2
  | .shutdown _ => True
  | .done => True
  | _ => s.sh.now = now0

/-- The execution of `keepAlive` alone up to its first staleness check on a
fake clock: the ping is written without error and the clock advances by
exactly `keepAlive / 2`, during the sleep. -/
def fakeClockProbe : List Action :=
  [.run .keepAlive (.ok 0 []), .run .keepAlive (.ok 0 []), .run .keepAlive (.ok 0 []),
    .run .keepAlive (.ok 0 []), .run .keepAlive (.ok 0 []), .run .keepAlive (.ok 0 []),
    .run .keepAlive (.ok 0 []), .tick 40000000000, .run .keepAlive (.ok 0 [])]

/-! ## Shutdown, run as a whole -/

/-- On a session that is already shut down and whose mutex is free, `Shutdown`
only takes and releases the mutex. -/
theorem Shutdown_of_closed (d : Duty) (s : Shared) (hc : s.p.shutdown = true)
    (hm : s.p.mutex = none) :
    Shutdown d s = some { s with trace := s.trace ++ [.lock d, .unlock d] } := by
  obtain ⟨p, now, lr, tr, pk⟩ := s
  obtain ⟨ws, ics, a, b, c, sd, m⟩ := p
  simp only at hc hm
  subst hc hm
  simp [Shutdown, Lock, Unlock, Shared.log]

/-- The first `Shutdown` of a session whose flag is clear, whose channels are
open and whose mutex is free. -/
theorem Shutdown_of_open (d : Duty) (s : Shared) (hc : s.p.shutdown = false)
    (hm : s.p.mutex = none) (h1 : s.p.wsReaderChannel = false)
    (h2 : s.p.icsReaderChannel = false) (h3 : s.p.keepAliveChannel = false) :
    Shutdown d s = some
      { s with
        p := { s.p with
          ws := { s.p.ws with closed := true }
          wsReaderChannel := true, icsReaderChannel := true, keepAliveChannel := true
          shutdown := true }
        trace := s.trace ++
          [.lock d, .wsWriteMessage d CloseMessage [], .wsClose d,
           .closeChan d .wsReaderChannel, .closeChan d .icsReaderChannel,
           .closeChan d .keepAliveChannel, .unlock d] } := by
  obtain ⟨p, now, lr, tr, pk⟩ := s
  obtain ⟨ws, ics, a, b, c, sd, m⟩ := p
  simp only at hc hm h1 h2 h3
  subst hc hm h1 h2 h3
  simp [Shutdown, Lock, Unlock, Shared.log, wsWriteMessage, wsClose, closeChan, setShutdown,
    Proxy.chanClosed, Proxy.setChanClosed]



/-- Further calls of `Shutdown` on a session that is shut down leave the
`Proxy` alone and add no close, no close frame and no panic. -/
theorem ShutdownAll_of_closed (ds : List Duty) (s : Shared) (hc : s.p.shutdown = true)
    (hm : s.p.mutex = none) :
    ∃ s', ShutdownAll ds s = some s' ∧ s'.p = s.p ∧ s'.panicked = s.panicked ∧
      s'.now = s.now ∧ s'.lastResponse = s.lastResponse ∧
      closeFrames s'.trace = closeFrames s.trace ∧ wsCloses s'.trace = wsCloses s.trace ∧
      icsCloses s'.trace = icsCloses s.trace ∧
      ∀ c, chanCloses c s'.trace = chanCloses c s.trace := by
  induction ds generalizing s with
  | nil => exact ⟨s, rfl, rfl, rfl, rfl, rfl, rfl, rfl, rfl, fun _ => rfl⟩
  | cons d ds ih =>
    obtain ⟨s', h, hp, hk, hn, hl, h1, h2, h3, h4⟩ :=
      ih { s with trace := s.trace ++ [.lock d, .unlock d] } hc hm
    refine ⟨s', ?_, hp, hk, hn, hl, ?_, ?_, ?_, ?_⟩
    · simp only [ShutdownAll, Shutdown_of_closed d s hc hm]
      exact h
    · rw [h1]; simp [closeFrames, List.countP_append, List.countP_cons]
    · rw [h2]; simp [wsCloses, List.countP_append, List.countP_cons]
    · rw [h3]; simp [icsCloses, List.countP_append, List.countP_cons]
    · intro c; rw [h4 c]; simp [chanCloses, List.countP_append, List.countP_cons]

/-- C1. `Shutdown` is idempotent. On a session whose flag `shutdown` is set (and
whose mutex is free, so that the call gets past `p.Lock()`), a call of
`Shutdown` changes nothing but the log, to which it adds its own lock and
unlock: no frame is written, no connection and no channel closed. And after
any number N >= 1 of calls (by any callers) on the session `NewProxy` has just
built, exactly one close frame has been written, the browser connection has
been closed exactly once, each of the three stop channels has been closed
exactly once, no panic has occurred and the flag is set. -/
theorem Shutdown_idempotent :
    (∀ (d : Duty) (s : Shared), s.p.shutdown = true → s.p.mutex = none →
      Shutdown d s = some { s with trace := s.trace ++ [Event.lock d, Event.unlock d] }) ∧
    (∀ (ics : IcsConn) (ws : WsConn) (p : Proxy) (now : Int) (ds : List Duty),
      (NewProxy (.ok ics) ws).proxy = some p → 1 ≤ ds.length →
      ∃ s', ShutdownAll ds (Shared.init p now) = some s' ∧
        closeFrames s'.trace = 1 ∧ wsCloses s'.trace = 1 ∧
        chanCloses .wsReaderChannel s'.trace = 1 ∧
        chanCloses .icsReaderChannel s'.trace = 1 ∧
        chanCloses .keepAliveChannel s'.trace = 1 ∧
        s'.panicked = false ∧ s'.p.shutdown = true ∧
        s'.p.wsReaderChannel = true ∧ s'.p.icsReaderChannel = true ∧
        s'.p.keepAliveChannel = true ∧ s'.p.ws.closed = true) := by
  refine ⟨Shutdown_of_closed, ?_⟩
  intro ics ws p now ds hp hlen
  cases ds with
  | nil => simp at hlen
  | cons d ds =>
    simp only [NewProxy, Option.some.injEq] at hp
    subst hp
    obtain ⟨s1, h1, e1⟩ : ∃ s1, Shutdown d (Shared.init
        { ws := ws, ics := ics, keepAliveChannel := false, icsReaderChannel := false,
          wsReaderChannel := false, shutdown := false, mutex := none } now) = some s1 ∧ s1 = _ :=
      ⟨_, Shutdown_of_open d _ rfl rfl rfl rfl rfl, rfl⟩
    obtain ⟨s', h, hp', hk, -, -, c1, c2, -, c4⟩ := ShutdownAll_of_closed ds s1
      (by subst e1; rfl) (by subst e1; rfl)
    refine ⟨s', ?_, ?_, ?_, ?_, ?_, ?_, ?_, ?_, ?_, ?_, ?_, ?_⟩
    · simp only [ShutdownAll, h1]; exact h
    · rw [c1, e1]; simp [closeFrames, Shared.init, List.countP_cons]
    · rw [c2, e1]; simp [wsCloses, Shared.init, List.countP_cons]
    · rw [c4, e1]; simp [chanCloses, Shared.init, List.countP_cons]
    · rw [c4, e1]; simp [chanCloses, Shared.init, List.countP_cons]
    · rw [c4, e1]; simp [chanCloses, Shared.init, List.countP_cons]
    · rw [hk, e1]; rfl
    all_goals (rw [hp']; subst e1; rfl)

/-- C1, at concrete inputs: a `Shutdown` on a session that is shut down, and
three calls of `Shutdown` on a fresh session. -/
theorem Shutdown_idempotent_witness :
    (Shutdown .icsReader
        { Shared.init { Proxy.fresh with shutdown := true } 0 with trace := [.wsClose .wsReader] } =
      some { Shared.init { Proxy.fresh with shutdown := true } 0 with
        trace := [.wsClose .wsReader] ++ [Event.lock .icsReader, Event.unlock .icsReader] }) ∧
    (∃ s', ShutdownAll [Duty.wsReader, Duty.icsReader, Duty.keepAlive]
        (Shared.init Proxy.fresh 0) = some s' ∧
      closeFrames s'.trace = 1 ∧ wsCloses s'.trace = 1 ∧
      chanCloses .wsReaderChannel s'.trace = 1 ∧
      chanCloses .icsReaderChannel s'.trace = 1 ∧
      chanCloses .keepAliveChannel s'.trace = 1 ∧
      s'.panicked = false ∧ s'.p.shutdown = true ∧
      s'.p.wsReaderChannel = true ∧ s'.p.icsReaderChannel = true ∧
      s'.p.keepAliveChannel = true ∧ s'.p.ws.closed = true) :=
  ⟨Shutdown_idempotent.1 .icsReader
      { Shared.init { Proxy.fresh with shutdown := true } 0 with trace := [.wsClose .wsReader] }
      rfl rfl,
    Shutdown_idempotent.2 IcsConn.fresh WsConn.fresh Proxy.fresh 0
      [Duty.wsReader, Duty.icsReader, Duty.keepAlive] rfl (by decide)⟩

/-- C2 as stated fails: after one `Shutdown` of a fresh session the browser
connection has been closed once, the backend connection not at all. -/
theorem Shutdown_backend_not_closed :
    (∃ s', ShutdownAll [Duty.wsReader] (Shared.init Proxy.fresh 0) = some s' ∧
      wsCloses s'.trace = 1 ∧ icsCloses s'.trace = 0 ∧ s'.p.ics.closed = false) ∧
    ¬ (∀ ds : List Duty, 1 ≤ ds.length →
      ∃ s', ShutdownAll ds (Shared.init Proxy.fresh 0) = some s' ∧
        wsCloses s'.trace = 1 ∧ icsCloses s'.trace = 1) := by
  refine ⟨⟨_, rfl, by decide, by decide, rfl⟩, ?_⟩
  intro h
  obtain ⟨s', h1, -, h3⟩ := h [Duty.wsReader] (by decide)
  have h2 : ShutdownAll [Duty.wsReader] (Shared.init Proxy.fresh 0) = some _ := rfl
  rw [h2] at h1
  have h4 := Option.some.inj h1
  subst h4
  revert h3
  decide

/-- C2, amended. After any number N >= 1 of calls of `Shutdown` on the session
`NewProxy` has just built, the browser connection has been closed exactly once
and the backend connection has not been closed: `Shutdown` leaves it as it
was. -/
theorem Shutdown_closes_browser_only (ics : IcsConn) (ws : WsConn) (p : Proxy) (now : Int)
    (ds : List Duty) (hp : (NewProxy (.ok ics) ws).proxy = some p) (hlen : 1 ≤ ds.length) :
    ∃ s', ShutdownAll ds (Shared.init p now) = some s' ∧
      wsCloses s'.trace = 1 ∧ s'.p.ws.closed = true ∧
      icsCloses s'.trace = 0 ∧ s'.p.ics = ics := by
  cases ds with
  | nil => simp at hlen
  | cons d ds =>
    simp only [NewProxy, Option.some.injEq] at hp
    subst hp
    obtain ⟨s1, h1, e1⟩ : ∃ s1, Shutdown d (Shared.init
        { ws := ws, ics := ics, keepAliveChannel := false, icsReaderChannel := false,
          wsReaderChannel := false, shutdown := false, mutex := none } now) = some s1 ∧ s1 = _ :=
      ⟨_, Shutdown_of_open d _ rfl rfl rfl rfl rfl, rfl⟩
    obtain ⟨s', h, hp', -, -, -, -, c2, c3, -⟩ := ShutdownAll_of_closed ds s1
      (by subst e1; rfl) (by subst e1; rfl)
    refine ⟨s', ?_, ?_, ?_, ?_, ?_⟩
    · simp only [ShutdownAll, h1]; exact h
    · rw [c2, e1]; simp [wsCloses, Shared.init, List.countP_cons]
    · rw [hp']; subst e1; rfl
    · rw [c3, e1]; simp [icsCloses, Shared.init, List.countP_cons]
    · rw [hp']; subst e1; rfl

/-- C2 amended, at a concrete input. -/
theorem Shutdown_closes_browser_only_witness :
    ∃ s', ShutdownAll [Duty.keepAlive, Duty.wsReader] (Shared.init Proxy.fresh 7) = some s' ∧
      wsCloses s'.trace = 1 ∧ s'.p.ws.closed = true ∧
      icsCloses s'.trace = 0 ∧ s'.p.ics = IcsConn.fresh :=
  Shutdown_closes_browser_only IcsConn.fresh WsConn.fresh Proxy.fresh 7
    [Duty.keepAlive, Duty.wsReader] rfl (by decide)

/-! ## Reading the log: lemmas -/

theorem wsFrames_append (a b : List Event) : wsFrames (a ++ b) = wsFrames a ++ wsFrames b := by
  induction a with
  | nil => rfl
  | cons e a ih => cases e <;> simp [wsFrames, ih]

theorem icsWrites_append (a b : List Event) :
    icsWrites (a ++ b) = icsWrites a ++ icsWrites b := by
  induction a with
  | nil => rfl
  | cons e a ih => cases e <;> simp [icsWrites, ih]

/-- On a line without byte 255, followed by the delimiter, `ReadUntil` returns
the line with the delimiter and leaves the rest unread. -/
theorem ReadUntil_line (L rest : List Byte) (h : LF ∉ L) (hc : IAC ∉ L) :
    ReadUntil LF (L ++ LF :: rest) = .line (L ++ [LF]) rest := by
  induction L with
  | nil => simp [ReadUntil, show LF ≠ IAC by decide]
  | cons b L ih =>
    have hb : b ≠ LF := fun e => h (e ▸ List.mem_cons_self _ _)
    have hb' : b ≠ IAC := fun e => hc (e ▸ List.mem_cons_self _ _)
    have hL : LF ∉ L := fun m => h (List.mem_cons_of_mem _ m)
    have hL' : IAC ∉ L := fun m => hc (List.mem_cons_of_mem _ m)
    simp [ReadUntil, hb, hb', ih hL hL']

/-! ## Construction -/

/-- C8. `NewProxy` fails exactly when the dial fails. When the dial fails with
`e`, it returns no `Proxy` and the error `e`, allocates no channel and starts no
goroutine. When the dial succeeds, it returns no error and a `Proxy` holding
the two connections, with the flag `shutdown` clear, the three stop channels
allocated and open and the mutex free, and it starts exactly `keepAlive`,
`icsReader` and `wsReader`. -/
theorem NewProxy_fail_fast (dial : Except Error IcsConn) (ws : WsConn) :
    ((NewProxy dial ws).err ≠ none ↔ ∃ e, dial = .error e) ∧
    (∀ e, dial = .error e →
      NewProxy dial ws = { proxy := none, err := some e, made := [], started := [] }) ∧
    (∀ ics, dial = .ok ics →
      (NewProxy dial ws).err = none ∧
      (NewProxy dial ws).made = [.keepAliveChannel, .icsReaderChannel, .wsReaderChannel] ∧
      (NewProxy dial ws).started = [.keepAlive, .icsReader, .wsReader] ∧
      ∃ p, (NewProxy dial ws).proxy = some p ∧ p.ws = ws ∧ p.ics = ics ∧
        p.shutdown = false ∧ p.keepAliveChannel = false ∧ p.icsReaderChannel = false ∧
        p.wsReaderChannel = false ∧ p.mutex = none) := by
  cases dial with
  | error e => simp [NewProxy]
  | ok ics => simp [NewProxy]

/-! ## One iteration of a reader -/

/-- C4. Browser to backend, verbatim. Let `wsReader` be at its `select` with its
stop channel open. If `ReadMessage` then succeeds with a frame of any message
type `t` and any payload `B`, the iteration performs, after that read, exactly
one `Write` on the backend connection, with exactly the bytes `B`, whatever
that write returns; nothing else is written to either connection. -/
theorem wsReader_relays_verbatim (s : State) (i r : Input) (t : Nat) (B : List Byte)
    (hpc : s.wsPc = .select) (hch : s.sh.p.wsReaderChannel = false)
    (hp : s.sh.panicked = false) :
    ∃ s', runDuty .wsReader [i, .ok t B, r] s = some s' ∧
      s'.sh.trace = s.sh.trace ++ [.wsReadMessage .wsReader, .icsWrite .wsReader B] ∧
      icsWrites s'.sh.trace = icsWrites s.sh.trace ++ [B] ∧
      wsFrames s'.sh.trace = wsFrames s.sh.trace ∧
      s'.wsPc = (if r.isErr then .shutdown .lock else .select) ∧
      s'.sh.p = s.sh.p ∧ s'.kaPc = s.kaPc ∧ s'.icsPc = s.icsPc := by
  obtain ⟨⟨p, now, lr, tr, pk⟩, ka, ic, w⟩ := s
  simp only at hpc hch hp
  subst hpc hp
  cases r <;>
    simp [runDuty, exec, step, stepWsReader, hch, Shared.log, icsWrite, Input.isErr,
      icsWrites_append, wsFrames_append, icsWrites, wsFrames]

/-- C4, at a concrete input: a binary frame with payload `[1, 255, 10]`. -/
theorem wsReader_relays_verbatim_witness :
    ∃ s', runDuty .wsReader [.err, .ok BinaryMessage [1, 255, 10], .ok 0 []]
        (State.init Proxy.fresh 0) = some s' ∧
      s'.sh.trace = (State.init Proxy.fresh 0).sh.trace ++
        [.wsReadMessage .wsReader, .icsWrite .wsReader [1, 255, 10]] ∧
      icsWrites s'.sh.trace = icsWrites (State.init Proxy.fresh 0).sh.trace ++ [[1, 255, 10]] ∧
      wsFrames s'.sh.trace = wsFrames (State.init Proxy.fresh 0).sh.trace ∧
      s'.wsPc = (if (Input.ok 0 []).isErr then .shutdown .lock else .select) ∧
      s'.sh.p = (State.init Proxy.fresh 0).sh.p ∧
      s'.kaPc = (State.init Proxy.fresh 0).kaPc ∧ s'.icsPc = (State.init Proxy.fresh 0).icsPc :=
  wsReader_relays_verbatim (State.init Proxy.fresh 0) .err (.ok 0 []) BinaryMessage [1, 255, 10]
    rfl rfl rfl

/-- C3 as stated fails: the backend sends "Hello, world!" and a line feed,
`ReadUntil` returns them with the line feed, and the one text frame
`icsReader` writes carries the line feed too. -/
theorem icsReader_keeps_delimiter :
    ReadUntil LF (helloWorld ++ [LF]) = .line (helloWorld ++ [LF]) [] ∧
    ∃ s', exec [.run .icsReader (.ok 0 []), .run .icsReader (.ok 0 (helloWorld ++ [LF])),
          .run .icsReader (.ok 0 []), .run .icsReader (.ok 0 []),
          .run .icsReader (.ok 0 [])] (State.init Proxy.fresh 0) = some s' ∧
      s'.icsPc = .select ∧
      wsFrames s'.sh.trace = [(TextMessage, helloWorld ++ [LF])] ∧
      wsFrames s'.sh.trace ≠ [(TextMessage, helloWorld)] :=
  ⟨by decide, _, rfl, rfl, by decide, by decide⟩

/-- C3, amended. Backend to browser, delimiter kept. Let `icsReader` be at its
`select` with its stop channel open and the mutex free.
* If the backend has produced a line `L` containing neither a line feed nor
  the telnet command byte 255, followed by a line feed (and possibly more),
  then `ReadUntil` returns `L` followed by the line feed, and one iteration
  writes exactly one frame to the browser connection, under the mutex: a text
  frame with that payload, delimiter included. Nothing is written to the
  backend.
* Whatever slice `msg` the call `ReadUntil` returns, the one frame written is
  a text frame with payload `msg`, unchanged: `icsReader` strips nothing. -/
theorem icsReader_relays_line (s : State) (i₁ i₂ i₃ r : Input) (t : Nat)
    (L rest : List Byte) (hL : LF ∉ L) (hC : IAC ∉ L)
    (hpc : s.icsPc = .select) (hch : s.sh.p.icsReaderChannel = false)
    (hm : s.sh.p.mutex = none) (hp : s.sh.panicked = false) :
    (∃ msg, ReadUntil LF (L ++ LF :: rest) = .line msg rest ∧ msg = L ++ [LF] ∧
      ∃ s', runDuty .icsReader [i₁, .ok t msg, i₂, r, i₃] s = some s' ∧
        s'.sh.trace = s.sh.trace ++
          [.icsReadUntil .icsReader, .lock .icsReader,
           .wsWriteMessage .icsReader TextMessage (L ++ [LF]), .unlock .icsReader] ∧
        wsFrames s'.sh.trace = wsFrames s.sh.trace ++ [(TextMessage, L ++ [LF])] ∧
        icsWrites s'.sh.trace = icsWrites s.sh.trace ∧ s'.sh.p.mutex = none ∧
        s'.icsPc = (if r.isErr then .shutdown .lock else .select)) ∧
    (∀ msg, ∃ s', runDuty .icsReader [i₁, .ok t msg, i₂, r, i₃] s = some s' ∧
      wsFrames s'.sh.trace = wsFrames s.sh.trace ++ [(TextMessage, msg)] ∧
      icsWrites s'.sh.trace = icsWrites s.sh.trace) := by
  obtain ⟨⟨⟨ws, ics, a, b, c, sd, m⟩, now, lr, tr, pk⟩, ka, ic, w⟩ := s
  simp only at hpc hch hm hp
  subst hpc hp hm hch
  refine ⟨⟨_, ReadUntil_line L rest hL hC, rfl, ?_⟩, fun msg => ?_⟩ <;>
  cases r <;>
    simp [runDuty, exec, step, stepIcsReader, Shared.log, Lock, Unlock, wsWriteMessage,
      Input.isErr, icsWrites_append, wsFrames_append, icsWrites, wsFrames]

/-- C3 amended, at a concrete input: "Hello, world!" and a line feed. -/
theorem icsReader_relays_line_witness :
    (∃ msg, ReadUntil LF (helloWorld ++ LF :: []) = .line msg [] ∧ msg = helloWorld ++ [LF] ∧
      ∃ s', runDuty .icsReader [.err, .ok 0 msg, .err, .ok 0 [], .err]
          (State.init Proxy.fresh 0) = some s' ∧
        s'.sh.trace = (State.init Proxy.fresh 0).sh.trace ++
          [.icsReadUntil .icsReader, .lock .icsReader,
           .wsWriteMessage .icsReader TextMessage (helloWorld ++ [LF]), .unlock .icsReader] ∧
        wsFrames s'.sh.trace =
          wsFrames (State.init Proxy.fresh 0).sh.trace ++ [(TextMessage, helloWorld ++ [LF])] ∧
        icsWrites s'.sh.trace = icsWrites (State.init Proxy.fresh 0).sh.trace ∧
        s'.sh.p.mutex = none ∧
        s'.icsPc = (if (Input.ok 0 []).isErr then .shutdown .lock else .select)) ∧
    (∀ msg, ∃ s', runDuty .icsReader [.err, .ok 0 msg, .err, .ok 0 [], .err]
        (State.init Proxy.fresh 0) = some s' ∧
      wsFrames s'.sh.trace =
        wsFrames (State.init Proxy.fresh 0).sh.trace ++ [(TextMessage, msg)] ∧
      icsWrites s'.sh.trace = icsWrites (State.init Proxy.fresh 0).sh.trace) :=
  icsReader_relays_line (State.init Proxy.fresh 0) .err .err .err (.ok 0 []) 0 helloWorld []
    (by decide) (by decide) rfl rfl rfl rfl

/-! ## The invariant -/

theorem lockDiscipline_append (h : Option Duty) (a b : List Event) :
    lockDiscipline h (a ++ b) = (lockDiscipline h a).bind fun h' => lockDiscipline h' b := by
  induction a generalizing h with
  | nil => rfl
  | cons e a ih =>
    cases e <;> simp only [List.cons_append, lockDiscipline] <;>
      first
        | exact ih _
        | (split
           · exact ih _
           · rfl)


theorem LocalInv_stepShutdown {d : Duty} {k k' : SdPc} {s s' : Shared}
    (h : LocalInv d k.region s) (hs : stepShutdown d k s = some (k', s')) :
    LocalInv d k'.region s' ∧ Frame d s s' ∧ s'.now = s.now ∧
      s'.lastResponse = s.lastResponse := by
  obtain ⟨⟨ws, ics, kc, ic, wc, fl, m⟩, now, lr, tr, pk⟩ := s
  obtain ⟨h1, h2, h3, h4, h5⟩ := h
  simp only at h1 h2 h3 h4 h5
  subst h1
  cases k <;>
    simp only [SdPc.region, Region.ok, Steady, ne_eq, not_true_eq_false, false_iff,
      reduceCtorEq, not_false_eq_true, true_iff] at h2 h3
  case' lock => cases m
  case' check => rcases h3 with ⟨rfl, rfl, rfl, rfl⟩ | ⟨rfl, rfl, rfl, rfl⟩
  case' unlock => rcases h3 with ⟨rfl, rfl, rfl, rfl⟩ | ⟨rfl, rfl, rfl, rfl⟩
  case' writeClose => obtain ⟨rfl, rfl, rfl, rfl⟩ := h3
  case' wsClose => obtain ⟨rfl, rfl, rfl, rfl⟩ := h3
  case' closeWsReaderChannel => obtain ⟨rfl, rfl, rfl, rfl⟩ := h3
  case' closeIcsReaderChannel => obtain ⟨rfl, rfl, rfl, rfl⟩ := h3
  case' closeKeepAliveChannel => obtain ⟨rfl, rfl, rfl, rfl⟩ := h3
  case' setFlag => obtain ⟨rfl, rfl, rfl, rfl⟩ := h3
  all_goals
    simp [stepShutdown, Lock, Unlock, Shared.log, wsWriteMessage, wsClose, closeChan,
      setShutdown, Proxy.chanClosed, Proxy.setChanClosed] at hs
  all_goals
    obtain ⟨rfl, rfl⟩ := hs
    refine ⟨⟨rfl, ?_, ?_, ?_, ?_⟩, ⟨?_, ?_⟩, rfl, rfl⟩ <;>
    simp_all [SdPc.region, Region.ok, Steady, lockDiscipline_append, lockDiscipline]
  all_goals (intro e he h; exact he h.symm)

theorem LocalInv_stepKeepAlive {pc pc' : KaPc} {i : Input} {s s' : Shared}
    (h : LocalInv .keepAlive pc.region s) (hs : stepKeepAlive pc i s = some (pc', s')) :
    LocalInv .keepAlive pc'.region s' ∧ Frame .keepAlive s s' := by
  cases pc
  case shutdown k =>
    simp only [stepKeepAlive] at hs
    cases hk : stepShutdown .keepAlive k s with
    | none => simp [hk] at hs
    | some r =>
      obtain ⟨k', s''⟩ := r
      have hl := LocalInv_stepShutdown h hk
      cases k' <;> simp [hk] at hs <;> obtain ⟨rfl, rfl⟩ := hs <;> exact ⟨hl.1, hl.2.1⟩
  all_goals
    obtain ⟨⟨ws, ics, kc, ic, wc, fl, m⟩, now, lr, tr, pk⟩ := s
    obtain ⟨h1, h2, h3, h4, h5⟩ := h
    simp only [KaPc.region, Region.ok, ne_eq, not_true_eq_false, false_iff,
      reduceCtorEq, not_false_eq_true, true_iff] at h1 h2 h3 h4 h5
    subst h1
    (try subst h2)
    (try cases m)
  all_goals
    simp [stepKeepAlive, Lock, Unlock, Shared.log, wsWriteMessage] at hs
  all_goals
    (try split at hs)
  all_goals
    (try simp at hs)
  all_goals
    first
      | obtain ⟨rfl, rfl⟩ := hs
      | obtain ⟨-, rfl, rfl⟩ := hs
  all_goals
    refine ⟨⟨rfl, ?_, ?_, ?_, ?_⟩, ⟨?_, ?_⟩⟩ <;>
    simp_all [KaPc.region, SdPc.region, Region.ok, Steady, lockDiscipline_append,
      lockDiscipline]
  all_goals (intro e he h; exact he h.symm)

theorem LocalInv_stepIcsReader {pc pc' : IcsPc} {i : Input} {s s' : Shared}
    (h : LocalInv .icsReader pc.region s) (hs : stepIcsReader pc i s = some (pc', s')) :
    LocalInv .icsReader pc'.region s' ∧ Frame .icsReader s s' := by
  cases pc
  case shutdown k =>
    simp only [stepIcsReader] at hs
    cases hk : stepShutdown .icsReader k s with
    | none => simp [hk] at hs
    | some r =>
      obtain ⟨k', s''⟩ := r
      have hl := LocalInv_stepShutdown h hk
      cases k' <;> simp [hk] at hs <;> obtain ⟨rfl, rfl⟩ := hs <;> exact ⟨hl.1, hl.2.1⟩
  case readUntil =>
    obtain ⟨⟨ws, ics, kc, ic, wc, fl, m⟩, now, lr, tr, pk⟩ := s
    obtain ⟨h1, h2, h3, h4, h5⟩ := h
    simp only [IcsPc.region, Region.ok, ne_eq, not_true_eq_false, false_iff] at h1 h2 h3 h4 h5
    subst h1
    cases i with
    | err =>
      simp [stepIcsReader, Shared.log] at hs
      obtain ⟨rfl, rfl⟩ := hs
      refine ⟨⟨rfl, ?_, ?_, ?_, ?_⟩, ⟨?_, ?_⟩⟩ <;>
      simp_all [IcsPc.region, SdPc.region, Region.ok, Steady, lockDiscipline_append,
        lockDiscipline]
    | ok t data =>
      simp [stepIcsReader, Shared.log] at hs
      obtain ⟨rfl, rfl⟩ := hs
      refine ⟨⟨rfl, ?_, ?_, ?_, ?_⟩, ⟨?_, ?_⟩⟩ <;>
      simp_all [IcsPc.region, SdPc.region, Region.ok, Steady, lockDiscipline_append,
        lockDiscipline]
  all_goals
    obtain ⟨⟨ws, ics, kc, ic, wc, fl, m⟩, now, lr, tr, pk⟩ := s
    obtain ⟨h1, h2, h3, h4, h5⟩ := h
    simp only [IcsPc.region, Region.ok, ne_eq, not_true_eq_false, false_iff,
      reduceCtorEq, not_false_eq_true, true_iff] at h1 h2 h3 h4 h5
    subst h1
    (try subst h2)
    (try cases m)
  all_goals
    simp [stepIcsReader, Lock, Unlock, Shared.log, wsWriteMessage] at hs
  all_goals
    (try split at hs)
  all_goals
    (try simp at hs)
  all_goals
    obtain ⟨rfl, rfl⟩ := hs
  all_goals
    refine ⟨⟨rfl, ?_, ?_, ?_, ?_⟩, ⟨?_, ?_⟩⟩ <;>
    simp_all [IcsPc.region, SdPc.region, Region.ok, Steady, lockDiscipline_append,
      lockDiscipline]
  all_goals (intro e he h; exact he h.symm)

theorem LocalInv_stepWsReader {pc pc' : WsPc} {i : Input} {s s' : Shared}
    (h : LocalInv .wsReader pc.region s) (hs : stepWsReader pc i s = some (pc', s')) :
    LocalInv .wsReader pc'.region s' ∧ Frame .wsReader s s' := by
  cases pc
  case shutdown k =>
    simp only [stepWsReader] at hs
    cases hk : stepShutdown .wsReader k s with
    | none => simp [hk] at hs
    | some r =>
      obtain ⟨k', s''⟩ := r
      have hl := LocalInv_stepShutdown h hk
      cases k' <;> simp [hk] at hs <;> obtain ⟨rfl, rfl⟩ := hs <;> exact ⟨hl.1, hl.2.1⟩
  all_goals
    obtain ⟨⟨ws, ics, kc, ic, wc, fl, m⟩, now, lr, tr, pk⟩ := s
    obtain ⟨h1, h2, h3, h4, h5⟩ := h
    simp only [WsPc.region, Region.ok, ne_eq, not_true_eq_false, false_iff,
      reduceCtorEq, not_false_eq_true, true_iff] at h1 h2 h3 h4 h5
    subst h1
    cases i
  all_goals
    simp [stepWsReader, Shared.log, icsWrite] at hs
  all_goals
    (try split at hs)
  all_goals
    (try simp at hs)
  all_goals
    obtain ⟨rfl, rfl⟩ := hs
  all_goals
    refine ⟨⟨rfl, ?_, ?_, ?_, ?_⟩, ⟨?_, ?_⟩⟩ <;>
    simp_all [WsPc.region, SdPc.region, Region.ok, Steady, lockDiscipline_append,
      lockDiscipline]

theorem Region.ok_congr {r : Region} {p p' : Proxy} (h1 : p'.shutdown = p.shutdown)
    (h2 : p'.wsReaderChannel = p.wsReaderChannel)
    (h3 : p'.icsReaderChannel = p.icsReaderChannel)
    (h4 : p'.keepAliveChannel = p.keepAliveChannel) (h : r.ok p) : r.ok p' := by
  cases r <;> simp_all [Region.ok, Steady]

/-- The invariant as seen by `e` survives a statement of another goroutine `d`. -/
theorem LocalInv_frame {d e : Duty} {r r' : Region} {s s' : Shared} (hne : e ≠ d)
    (he : LocalInv e r s) (hd : LocalInv d r' s') (hf : Frame d s s') : LocalInv e r s' := by
  refine ⟨hd.noPanic, he.holder.trans (hf.others e hne).symm, ?_, hd.free, hd.locks⟩
  rcases hf.flags with hm | ⟨f1, f2, f3, f4⟩
  · have hr : r = .idle := by
      by_contra hr
      have := he.holder.mp hr
      rw [hm] at this
      exact hne (Option.some.inj this).symm
    subst hr
    trivial
  · exact Region.ok_congr f1 f2 f3 f4 he.ok

/-- The invariant does not depend on the clock, on `lastResponse` or on the
state of the two connections. -/
theorem LocalInv_congr {d : Duty} {r : Region} {s s' : Shared}
    (hk : s'.panicked = s.panicked) (hm : s'.p.mutex = s.p.mutex) (ht : s'.trace = s.trace)
    (h1 : s'.p.shutdown = s.p.shutdown) (h2 : s'.p.wsReaderChannel = s.p.wsReaderChannel)
    (h3 : s'.p.icsReaderChannel = s.p.icsReaderChannel)
    (h4 : s'.p.keepAliveChannel = s.p.keepAliveChannel) (h : LocalInv d r s) :
    LocalInv d r s' := by
  refine ⟨hk.trans h.noPanic, by rw [hm]; exact h.holder, Region.ok_congr h1 h2 h3 h4 h.ok,
    ?_, by rw [ht, hm]; exact h.locks⟩
  intro hn
  rw [hm] at hn
  have := h.free hn
  unfold Steady at this ⊢
  rw [h1, h2, h3, h4]
  exact this

/-- Every action preserves the invariant. -/
theorem Inv_step {a : Action} {s s' : State} (h : Inv s) (hs : step a s = some s') :
    Inv s' := by
  have hp : s.sh.panicked = false := (h .keepAlive).noPanic
  cases a with
  | run d i =>
    cases d with
    | keepAlive =>
      simp only [step, hp, Bool.false_eq_true, if_false, Option.map_eq_some'] at hs
      obtain ⟨⟨pc', sh'⟩, hr, rfl⟩ := hs
      obtain ⟨hl, hf⟩ := LocalInv_stepKeepAlive (h .keepAlive) hr
      intro e
      cases e
      · exact hl
      · exact LocalInv_frame (by decide) (h .icsReader) hl hf
      · exact LocalInv_frame (by decide) (h .wsReader) hl hf
    | icsReader =>
      simp only [step, hp, Bool.false_eq_true, if_false, Option.map_eq_some'] at hs
      obtain ⟨⟨pc', sh'⟩, hr, rfl⟩ := hs
      obtain ⟨hl, hf⟩ := LocalInv_stepIcsReader (h .icsReader) hr
      intro e
      cases e
      · exact LocalInv_frame (by decide) (h .keepAlive) hl hf
      · exact hl
      · exact LocalInv_frame (by decide) (h .wsReader) hl hf
    | wsReader =>
      simp only [step, hp, Bool.false_eq_true, if_false, Option.map_eq_some'] at hs
      obtain ⟨⟨pc', sh'⟩, hr, rfl⟩ := hs
      obtain ⟨hl, hf⟩ := LocalInv_stepWsReader (h .wsReader) hr
      intro e
      cases e
      · exact LocalInv_frame (by decide) (h .keepAlive) hl hf
      · exact LocalInv_frame (by decide) (h .icsReader) hl hf
      · exact hl
  | pong =>
    simp only [step, hp, Bool.false_eq_true, if_false] at hs
    by_cases hr : s.wsPc = .readMessage
    · rw [if_pos hr] at hs
      simp only [Option.some.injEq] at hs
      subst hs
      intro e
      by_cases hh : s.sh.p.ws.pongHandler = true
      · rw [if_pos hh]
        cases e
        · refine LocalInv_congr ?_ ?_ ?_ ?_ ?_ ?_ ?_ (h .keepAlive) <;> rfl
        · refine LocalInv_congr ?_ ?_ ?_ ?_ ?_ ?_ ?_ (h .icsReader) <;> rfl
        · refine LocalInv_congr ?_ ?_ ?_ ?_ ?_ ?_ ?_ (h .wsReader) <;> rfl
      · rw [if_neg hh]
        exact h e
    · rw [if_neg hr] at hs
      exact absurd hs (by simp)
  | tick dt =>
    simp only [step, hp, Bool.false_eq_true, if_false, Option.some.injEq] at hs
    subst hs
    intro e
    exact LocalInv_congr hp.symm rfl rfl rfl rfl rfl rfl (h e)

/-- The invariant holds along every execution. -/
theorem Inv_exec {as : List Action} {s s' : State} (h : Inv s) (hs : exec as s = some s') :
    Inv s' := by
  induction as generalizing s with
  | nil =>
    simp only [exec, Option.some.injEq] at hs
    exact hs ▸ h
  | cons a as ih =>
    simp only [exec] at hs
    cases ha : step a s with
    | none => simp [ha] at hs
    | some s₁ =>
      rw [ha] at hs
      exact ih (Inv_step h ha) hs

/-- The invariant holds for the session `NewProxy` has just built. -/
theorem Inv_init (ics : IcsConn) (ws : WsConn) (p : Proxy) (now : Int)
    (hp : (NewProxy (.ok ics) ws).proxy = some p) : Inv (State.init p now) := by
  simp only [NewProxy, Option.some.injEq] at hp
  subst hp
  intro d
  cases d <;>
    exact ⟨rfl, by simp [State.region, State.init, KaPc.region, IcsPc.region, WsPc.region,
      Shared.init], trivial, fun _ => Or.inl ⟨rfl, rfl, rfl, rfl⟩, rfl⟩

/-! ## Writes to the browser connection -/

theorem stepShutdown_writes {d : Duty} {k k' : SdPc} {s s' : Shared}
    (hs : stepShutdown d k s = some (k', s')) (hw : wsFrames s'.trace ≠ wsFrames s.trace) :
    k.region ≠ .idle ∧ k'.region ≠ .idle := by
  cases k
  case lock =>
    simp only [stepShutdown, Lock] at hs
    cases hm : s.p.mutex <;> simp [hm, Shared.log] at hs
    obtain ⟨rfl, rfl⟩ := hs
    simp [wsFrames_append, wsFrames] at hw
  case closeWsReaderChannel =>
    simp only [stepShutdown, closeChan, Option.some.injEq, Prod.mk.injEq] at hs
    obtain ⟨rfl, rfl⟩ := hs
    simp [SdPc.region]
  case closeIcsReaderChannel =>
    simp only [stepShutdown, closeChan, Option.some.injEq, Prod.mk.injEq] at hs
    obtain ⟨rfl, rfl⟩ := hs
    simp [SdPc.region]
  case closeKeepAliveChannel =>
    simp only [stepShutdown, closeChan, Option.some.injEq, Prod.mk.injEq] at hs
    obtain ⟨rfl, rfl⟩ := hs
    revert hw
    split <;> simp [wsFrames_append, wsFrames, Shared.log]
  case check =>
    simp only [stepShutdown] at hs
    split at hs <;> simp at hs <;> obtain ⟨rfl, rfl⟩ := hs <;> simp [SdPc.region]
  case ret => simp [stepShutdown] at hs
  all_goals
    simp only [stepShutdown, Option.some.injEq, Prod.mk.injEq] at hs
    obtain ⟨rfl, rfl⟩ := hs
    simp [SdPc.region, wsFrames_append, wsFrames, Shared.log, wsClose, setShutdown,
      Unlock] at hw ⊢

theorem stepKeepAlive_writes {pc pc' : KaPc} {i : Input} {s s' : Shared}
    (hs : stepKeepAlive pc i s = some (pc', s')) (hw : wsFrames s'.trace ≠ wsFrames s.trace) :
    pc.region ≠ .idle ∧ pc'.region ≠ .idle := by
  cases pc
  case shutdown k =>
    simp only [stepKeepAlive] at hs
    cases hk : stepShutdown .keepAlive k s with
    | none => simp [hk] at hs
    | some r =>
      obtain ⟨k', s''⟩ := r
      cases k' <;> simp [hk] at hs <;> obtain ⟨rfl, rfl⟩ := hs <;>
        exact stepShutdown_writes hk hw
  case lock =>
    simp only [stepKeepAlive, Lock] at hs
    cases hm : s.p.mutex <;> simp [hm, Shared.log] at hs
    obtain ⟨rfl, rfl⟩ := hs
    simp [wsFrames_append, wsFrames] at hw
  case writeMessage =>
    simp only [stepKeepAlive, Option.some.injEq, Prod.mk.injEq] at hs
    obtain ⟨rfl, rfl⟩ := hs
    simp [KaPc.region]
  all_goals
    simp only [stepKeepAlive] at hs
    (try split at hs)
  all_goals
    simp only [Option.some.injEq, Prod.mk.injEq, reduceCtorEq] at hs
  all_goals
    obtain ⟨rfl, rfl⟩ := hs
    simp [wsFrames_append, wsFrames, Shared.log, Unlock] at hw

theorem stepIcsReader_writes {pc pc' : IcsPc} {i : Input} {s s' : Shared}
    (hs : stepIcsReader pc i s = some (pc', s')) (hw : wsFrames s'.trace ≠ wsFrames s.trace) :
    pc.region ≠ .idle ∧ pc'.region ≠ .idle := by
  cases pc
  case shutdown k =>
    simp only [stepIcsReader] at hs
    cases hk : stepShutdown .icsReader k s with
    | none => simp [hk] at hs
    | some r =>
      obtain ⟨k', s''⟩ := r
      cases k' <;> simp [hk] at hs <;> obtain ⟨rfl, rfl⟩ := hs <;>
        exact stepShutdown_writes hk hw
  case lock msg =>
    simp only [stepIcsReader, Lock] at hs
    cases hm : s.p.mutex <;> simp [hm, Shared.log] at hs
    obtain ⟨rfl, rfl⟩ := hs
    simp [wsFrames_append, wsFrames] at hw
  case writeMessage msg =>
    simp only [stepIcsReader, Option.some.injEq, Prod.mk.injEq] at hs
    obtain ⟨rfl, rfl⟩ := hs
    simp [IcsPc.region]
  case readUntil =>
    cases i with
    | err =>
      simp only [stepIcsReader, Option.some.injEq, Prod.mk.injEq] at hs
      obtain ⟨rfl, rfl⟩ := hs
      simp [wsFrames_append, wsFrames, Shared.log] at hw
    | ok t data =>
      simp only [stepIcsReader, Option.some.injEq, Prod.mk.injEq] at hs
      obtain ⟨rfl, rfl⟩ := hs
      simp [wsFrames_append, wsFrames, Shared.log] at hw
  all_goals
    simp only [stepIcsReader] at hs
    (try split at hs)
  all_goals
    simp only [Option.some.injEq, Prod.mk.injEq, reduceCtorEq] at hs
  all_goals
    obtain ⟨rfl, rfl⟩ := hs
    simp [wsFrames_append, wsFrames, Shared.log, Unlock] at hw

theorem stepWsReader_writes {pc pc' : WsPc} {i : Input} {s s' : Shared}
    (hs : stepWsReader pc i s = some (pc', s')) (hw : wsFrames s'.trace ≠ wsFrames s.trace) :
    pc.region ≠ .idle ∧ pc'.region ≠ .idle := by
  cases pc
  case shutdown k =>
    simp only [stepWsReader] at hs
    cases hk : stepShutdown .wsReader k s with
    | none => simp [hk] at hs
    | some r =>
      obtain ⟨k', s''⟩ := r
      cases k' <;> simp [hk] at hs <;> obtain ⟨rfl, rfl⟩ := hs <;>
        exact stepShutdown_writes hk hw
  all_goals
    simp only [stepWsReader] at hs
    (try split at hs)
  all_goals
    simp only [Option.some.injEq, Prod.mk.injEq, reduceCtorEq] at hs
  all_goals
    obtain ⟨rfl, rfl⟩ := hs
    simp [wsFrames_append, wsFrames, Shared.log, icsWrite] at hw

/-- C7. Exclusive browser writes. In every state a session can reach from
`NewProxy`:
* the log obeys the mutex: replayed from the start, every `Lock` finds the
  mutex free, every `Unlock` is by the holder, and every frame written to the
  browser connection (text frame of `icsReader`, ping of `keepAlive`, close
  frame of `Shutdown`) is written by the goroutine holding the mutex, after
  its `Lock` and before its `Unlock`;
* a goroutine holds the mutex exactly while it is between a `Lock` and the
  matching `Unlock` (region other than `idle`), so not when it is back at its
  `select`, asleep, or entering `Shutdown` after a failed write;
* at most one goroutine is between `Lock` and `Unlock`;
* a statement that writes a frame to the browser connection is executed with
  the mutex held by the writer, before and after the write. -/
theorem browser_writes_exclusive (ics : IcsConn) (ws : WsConn) (p : Proxy) (now : Int)
    (as : List Action) (s : State) (hp : (NewProxy (.ok ics) ws).proxy = some p)
    (hs : exec as (State.init p now) = some s) :
    lockDiscipline none s.sh.trace = some s.sh.p.mutex ∧
    (∀ d, s.sh.p.mutex = some d ↔ s.region d ≠ .idle) ∧
    (∀ d e, s.region d ≠ .idle → s.region e ≠ .idle → d = e) ∧
    (∀ d i s', step (.run d i) s = some s' →
      wsFrames s'.sh.trace ≠ wsFrames s.sh.trace →
      s.sh.p.mutex = some d ∧ s'.sh.p.mutex = some d) := by
  have hI : Inv s := Inv_exec (Inv_init ics ws p now hp) hs
  refine ⟨(hI .keepAlive).locks, fun d => (hI d).holder.symm, ?_, ?_⟩
  · intro d e hd he
    have h1 := (hI d).holder.mp hd
    have h2 := (hI e).holder.mp he
    rw [h1] at h2
    exact Option.some.inj h2
  · intro d i s' hstep hw
    have hI' : Inv s' := Inv_step hI hstep
    have hk : s.sh.panicked = false := (hI .keepAlive).noPanic
    cases d with
    | keepAlive =>
      simp only [step, hk, Bool.false_eq_true, if_false, Option.map_eq_some'] at hstep
      obtain ⟨⟨pc', sh'⟩, hr, rfl⟩ := hstep
      obtain ⟨r1, r2⟩ := stepKeepAlive_writes hr hw
      exact ⟨(hI .keepAlive).holder.mp r1, (hI' .keepAlive).holder.mp r2⟩
    | icsReader =>
      simp only [step, hk, Bool.false_eq_true, if_false, Option.map_eq_some'] at hstep
      obtain ⟨⟨pc', sh'⟩, hr, rfl⟩ := hstep
      obtain ⟨r1, r2⟩ := stepIcsReader_writes hr hw
      exact ⟨(hI .icsReader).holder.mp r1, (hI' .icsReader).holder.mp r2⟩
    | wsReader =>
      simp only [step, hk, Bool.false_eq_true, if_false, Option.map_eq_some'] at hstep
      obtain ⟨⟨pc', sh'⟩, hr, rfl⟩ := hstep
      obtain ⟨r1, r2⟩ := stepWsReader_writes hr hw
      exact ⟨(hI .wsReader).holder.mp r1, (hI' .wsReader).holder.mp r2⟩

/-- C7, at a concrete execution: `keepAlive` has taken the mutex for its ping
while `icsReader` waits with a line to forward. -/
theorem browser_writes_exclusive_witness :
    ∃ s, exec [.run .keepAlive (.ok 0 []), .run .keepAlive (.ok 0 []),
        .run .icsReader (.ok 0 []), .run .icsReader (.ok 0 (helloWorld ++ [LF])),
        .run .keepAlive (.ok 0 []), .run .keepAlive (.ok 0 [])]
        (State.init Proxy.fresh 0) = some s ∧
      lockDiscipline none s.sh.trace = some s.sh.p.mutex ∧
      (∀ d, s.sh.p.mutex = some d ↔ s.region d ≠ .idle) ∧
      (∀ d e, s.region d ≠ .idle → s.region e ≠ .idle → d = e) ∧
      (∀ d i s', step (.run d i) s = some s' →
        wsFrames s'.sh.trace ≠ wsFrames s.sh.trace →
        s.sh.p.mutex = some d ∧ s'.sh.p.mutex = some d) := by
  obtain ⟨s, hs⟩ : ∃ s, exec [.run .keepAlive (.ok 0 []), .run .keepAlive (.ok 0 []),
      .run .icsReader (.ok 0 []), .run .icsReader (.ok 0 (helloWorld ++ [LF])),
      .run .keepAlive (.ok 0 []), .run .keepAlive (.ok 0 [])]
      (State.init Proxy.fresh 0) = some s := ⟨_, rfl⟩
  exact ⟨s, hs,
    browser_writes_exclusive IcsConn.fresh WsConn.fresh Proxy.fresh 0 _ s rfl hs⟩

/-! ## After shutdown -/

/-- Once the flag is set, all stop channels are closed. -/
theorem Inv.closed {s : State} (h : Inv s) (hc : s.sh.p.shutdown = true) :
    s.sh.p.wsReaderChannel = true ∧ s.sh.p.icsReaderChannel = true ∧
      s.sh.p.keepAliveChannel = true := by
  have key : Steady s.sh.p := by
    cases hm : s.sh.p.mutex with
    | none => exact (h .keepAlive).free hm
    | some d =>
      have hr := (h d).holder.mpr hm
      have hok := (h d).ok
      generalize s.region d = r at hr hok
      cases r <;> simp_all [Region.ok]
  rcases key with ⟨h0, -⟩ | ⟨-, h1, h2, h3⟩
  · rw [hc] at h0; exact absurd h0 (by decide)
  · exact ⟨h1, h2, h3⟩

/-- With the flag set, a statement of `Shutdown` writes nothing and leaves the
flag set. -/
theorem stepShutdown_silent {d : Duty} {k k' : SdPc} {s s' : Shared}
    (hs : stepShutdown d k s = some (k', s')) (hl : LocalInv d k.region s)
    (hc : s.p.shutdown = true) :
    s'.p.shutdown = true ∧ ∀ e, writesBy e s'.trace = writesBy e s.trace := by
  obtain ⟨⟨ws, ics, kc, ic, wc, fl, m⟩, now, lr, tr, pk⟩ := s
  have hok := hl.ok
  simp only at hc
  subst hc
  cases k <;> simp [SdPc.region, Region.ok] at hok
  case lock =>
    cases m <;> simp [stepShutdown, Lock, Shared.log] at hs
    obtain ⟨rfl, rfl⟩ := hs
    simp [writesBy, List.countP_append, List.countP_cons]
  case ret => simp [stepShutdown] at hs
  all_goals
    simp [stepShutdown, Unlock, Shared.log] at hs
    obtain ⟨rfl, rfl⟩ := hs
    simp [writesBy, List.countP_append, List.countP_cons]

theorem stepKeepAlive_silent {pc pc' : KaPc} {i : Input} {s s' : Shared}
    (hs : stepKeepAlive pc i s = some (pc', s')) (hl : LocalInv .keepAlive pc.region s)
    (hc : s.p.shutdown = true) (hch : s.p.keepAliveChannel = true) :
    s'.p.shutdown = true ∧
      writesBy .keepAlive s'.trace + pc'.pendingWrites ≤
        writesBy .keepAlive s.trace + pc.pendingWrites ∧
      ∀ e, e ≠ .keepAlive → writesBy e s'.trace = writesBy e s.trace := by
  cases pc
  case shutdown k =>
    simp only [stepKeepAlive] at hs
    cases hk : stepShutdown .keepAlive k s with
    | none => simp [hk] at hs
    | some r =>
      obtain ⟨k', s''⟩ := r
      obtain ⟨h1, h2⟩ := stepShutdown_silent hk hl hc
      cases k' <;> simp [hk] at hs <;> obtain ⟨rfl, rfl⟩ := hs <;>
        exact ⟨h1, by simp [h2, KaPc.pendingWrites], fun e _ => h2 e⟩
  all_goals
    obtain ⟨⟨ws, ics, kc, ic, wc, fl, m⟩, now, lr, tr, pk⟩ := s
    simp only at hc hch
    subst hc hch
    (try cases m)
  all_goals
    simp [stepKeepAlive, Lock, Unlock, Shared.log, wsWriteMessage] at hs
  all_goals
    (try split at hs)
  all_goals
    (try simp at hs)
  all_goals
    first
      | obtain ⟨rfl, rfl⟩ := hs
      | obtain ⟨-, rfl, rfl⟩ := hs
  all_goals
    refine ⟨rfl, ?_, ?_⟩
  all_goals
    (try intro e he)
    (try cases e)
  all_goals
    simp_all [writesBy, List.countP_append, List.countP_cons, KaPc.pendingWrites]

theorem stepIcsReader_silent {pc pc' : IcsPc} {i : Input} {s s' : Shared}
    (hs : stepIcsReader pc i s = some (pc', s')) (hl : LocalInv .icsReader pc.region s)
    (hc : s.p.shutdown = true) (hch : s.p.icsReaderChannel = true) :
    s'.p.shutdown = true ∧
      writesBy .icsReader s'.trace + pc'.pendingWrites ≤
        writesBy .icsReader s.trace + pc.pendingWrites ∧
      ∀ e, e ≠ .icsReader → writesBy e s'.trace = writesBy e s.trace := by
  cases pc
  case shutdown k =>
    simp only [stepIcsReader] at hs
    cases hk : stepShutdown .icsReader k s with
    | none => simp [hk] at hs
    | some r =>
      obtain ⟨k', s''⟩ := r
      obtain ⟨h1, h2⟩ := stepShutdown_silent hk hl hc
      cases k' <;> simp [hk] at hs <;> obtain ⟨rfl, rfl⟩ := hs <;>
        exact ⟨h1, by simp [h2, IcsPc.pendingWrites], fun e _ => h2 e⟩
  case readUntil =>
    cases i with
    | err =>
      simp only [stepIcsReader, Option.some.injEq, Prod.mk.injEq] at hs
      obtain ⟨rfl, rfl⟩ := hs
      refine ⟨hc, ?_, fun e _ => ?_⟩ <;>
        simp [writesBy, List.countP_append, List.countP_cons, IcsPc.pendingWrites, Shared.log]
    | ok t data =>
      simp only [stepIcsReader, Option.some.injEq, Prod.mk.injEq] at hs
      obtain ⟨rfl, rfl⟩ := hs
      refine ⟨hc, ?_, fun e _ => ?_⟩ <;>
        simp [writesBy, List.countP_append, List.countP_cons, IcsPc.pendingWrites, Shared.log]
  all_goals
    obtain ⟨⟨ws, ics, kc, ic, wc, fl, m⟩, now, lr, tr, pk⟩ := s
    simp only at hc hch
    subst hc hch
    (try cases m)
  all_goals
    simp [stepIcsReader, Lock, Unlock, Shared.log, wsWriteMessage] at hs
  all_goals
    (try split at hs)
  all_goals
    (try simp at hs)
  all_goals
    obtain ⟨rfl, rfl⟩ := hs
    refine ⟨rfl, ?_, ?_⟩
  all_goals
    (try intro e he)
    (try cases e)
  all_goals
    simp_all [writesBy, List.countP_append, List.countP_cons, IcsPc.pendingWrites]

theorem stepWsReader_silent {pc pc' : WsPc} {i : Input} {s s' : Shared}
    (hs : stepWsReader pc i s = some (pc', s')) (hl : LocalInv .wsReader pc.region s)
    (hc : s.p.shutdown = true) (hch : s.p.wsReaderChannel = true) :
    s'.p.shutdown = true ∧
      writesBy .wsReader s'.trace + pc'.pendingWrites ≤
        writesBy .wsReader s.trace + pc.pendingWrites ∧
      ∀ e, e ≠ .wsReader → writesBy e s'.trace = writesBy e s.trace := by
  cases pc
  case shutdown k =>
    simp only [stepWsReader] at hs
    cases hk : stepShutdown .wsReader k s with
    | none => simp [hk] at hs
    | some r =>
      obtain ⟨k', s''⟩ := r
      obtain ⟨h1, h2⟩ := stepShutdown_silent hk hl hc
      cases k' <;> simp [hk] at hs <;> obtain ⟨rfl, rfl⟩ := hs <;>
        exact ⟨h1, by simp [h2, WsPc.pendingWrites], fun e _ => h2 e⟩
  all_goals
    obtain ⟨⟨ws, ics, kc, ic, wc, fl, m⟩, now, lr, tr, pk⟩ := s
    simp only at hc hch
    subst hc hch
    cases i
  all_goals
    simp [stepWsReader, Shared.log, icsWrite] at hs
  all_goals
    obtain ⟨rfl, rfl⟩ := hs
    refine ⟨rfl, ?_, ?_⟩
  all_goals
    (try intro e he)
    (try cases e)
  all_goals
    simp_all [writesBy, List.countP_append, List.countP_cons, WsPc.pendingWrites]

/-- With the flag set, an action leaves the flag set and lets no goroutine
write more than it still owes. -/
theorem silent_step {a : Action} {s s' : State} (h : Inv s) (hc : s.sh.p.shutdown = true)
    (hs : step a s = some s') :
    s'.sh.p.shutdown = true ∧
      ∀ d, writesBy d s'.sh.trace + s'.pendingWrites d ≤
        writesBy d s.sh.trace + s.pendingWrites d := by
  have hk : s.sh.panicked = false := (h .keepAlive).noPanic
  obtain ⟨c1, c2, c3⟩ := h.closed hc
  cases a with
  | run d i =>
    cases d with
    | keepAlive =>
      simp only [step, hk, Bool.false_eq_true, if_false, Option.map_eq_some'] at hs
      obtain ⟨⟨pc', sh'⟩, hr, rfl⟩ := hs
      obtain ⟨r1, r2, r3⟩ := stepKeepAlive_silent hr (h .keepAlive) hc c3
      refine ⟨r1, fun d => ?_⟩
      cases d
      · exact r2
      · exact le_of_eq (congrArg (· + _) (r3 .icsReader (by decide)))
      · exact le_of_eq (congrArg (· + _) (r3 .wsReader (by decide)))
    | icsReader =>
      simp only [step, hk, Bool.false_eq_true, if_false, Option.map_eq_some'] at hs
      obtain ⟨⟨pc', sh'⟩, hr, rfl⟩ := hs
      obtain ⟨r1, r2, r3⟩ := stepIcsReader_silent hr (h .icsReader) hc c2
      refine ⟨r1, fun d => ?_⟩
      cases d
      · exact le_of_eq (congrArg (· + _) (r3 .keepAlive (by decide)))
      · exact r2
      · exact le_of_eq (congrArg (· + _) (r3 .wsReader (by decide)))
    | wsReader =>
      simp only [step, hk, Bool.false_eq_true, if_false, Option.map_eq_some'] at hs
      obtain ⟨⟨pc', sh'⟩, hr, rfl⟩ := hs
      obtain ⟨r1, r2, r3⟩ := stepWsReader_silent hr (h .wsReader) hc c1
      refine ⟨r1, fun d => ?_⟩
      cases d
      · exact le_of_eq (congrArg (· + _) (r3 .keepAlive (by decide)))
      · exact le_of_eq (congrArg (· + _) (r3 .icsReader (by decide)))
      · exact r2
  | pong =>
    simp only [step, hk, Bool.false_eq_true, if_false] at hs
    by_cases hr : s.wsPc = .readMessage
    · rw [if_pos hr] at hs
      simp only [Option.some.injEq] at hs
      subst hs
      by_cases hh : s.sh.p.ws.pongHandler = true
      · rw [if_pos hh]
        exact ⟨hc, fun d => by cases d <;> exact le_refl _⟩
      · rw [if_neg hh]
        exact ⟨hc, fun d => le_refl _⟩
    · rw [if_neg hr] at hs
      exact absurd hs (by simp)
  | tick dt =>
    simp only [step, hk, Bool.false_eq_true, if_false, Option.some.injEq] at hs
    subst hs
    exact ⟨hc, fun d => by cases d <;> exact le_refl _⟩

theorem silent_exec {as : List Action} {s s' : State} (h : Inv s)
    (hc : s.sh.p.shutdown = true) (hs : exec as s = some s') :
    s'.sh.p.shutdown = true ∧
      ∀ d, writesBy d s'.sh.trace + s'.pendingWrites d ≤
        writesBy d s.sh.trace + s.pendingWrites d := by
  induction as generalizing s with
  | nil =>
    simp only [exec, Option.some.injEq] at hs
    subst hs
    exact ⟨hc, fun d => le_refl _⟩
  | cons a as ih =>
    simp only [exec] at hs
    cases ha : step a s with
    | none => simp [ha] at hs
    | some s₁ =>
      rw [ha] at hs
      obtain ⟨c1, w1⟩ := silent_step h hc ha
      obtain ⟨c2, w2⟩ := ih (Inv_step h ha) c1 hs
      exact ⟨c2, fun d => le_trans (w2 d) (w1 d)⟩

theorem State.pendingWrites_le_one (s : State) (d : Duty) : s.pendingWrites d ≤ 1 := by
  cases d
  · simp only [State.pendingWrites]; cases s.kaPc <;> simp [KaPc.pendingWrites]
  · simp only [State.pendingWrites]; cases s.icsPc <;> simp [IcsPc.pendingWrites]
  · simp only [State.pendingWrites]; cases s.wsPc <;> simp [WsPc.pendingWrites]

/-- C6 as stated fails. `wsReader` has read a frame and `icsReader` is blocked
in its read when a failed ping makes `keepAlive` run `Shutdown` to the end: the
flag is set, the browser connection and the three channels are closed. After
that `wsReader` still writes the frame to the backend, and `icsReader`, once
its read returns a line, still writes a text frame to the browser connection. -/
theorem writes_after_shutdown :
    ∃ s s', exec shutdownByKeepAlive (State.init Proxy.fresh 0) = some s ∧
      s.sh.p.shutdown = true ∧ s.sh.p.ws.closed = true ∧ s.kaPc = .done ∧
      s.sh.p.wsReaderChannel = true ∧ s.sh.p.icsReaderChannel = true ∧
      exec [.run .wsReader (.ok 0 []), .run .icsReader (.ok 0 (helloWorld ++ [LF])),
          .run .icsReader (.ok 0 []), .run .icsReader .err]
        s = some s' ∧
      icsWrites s.sh.trace = [] ∧ icsWrites s'.sh.trace = [[104, 105]] ∧
      wsFrames s.sh.trace = [(PingMessage, keepalivePayload), (CloseMessage, [])] ∧
      wsFrames s'.sh.trace = [(PingMessage, keepalivePayload), (CloseMessage, []),
        (TextMessage, helloWorld ++ [LF])] :=
  ⟨_, _, rfl, rfl, rfl, rfl, rfl, rfl, rfl, by decide, by decide, by decide, by decide⟩

/-- C6, amended. Post-shutdown silence, up to the iteration in progress. In
every state a session can reach from `NewProxy` in which the flag `shutdown` is
set, and for every continuation of the execution from there: the flag stays
set; each goroutine performs at most one further write on the two connections,
and only if it was inside an iteration that had not yet written
(`pendingWrites`); a goroutine at any other program point, in particular at its
`select`, asleep or inside `Shutdown`, performs none; and a goroutine at its
`select` returns with its next statement. -/
theorem post_shutdown_writes (ics : IcsConn) (ws : WsConn) (p : Proxy) (now : Int)
    (as bs : List Action) (s s' : State) (hp : (NewProxy (.ok ics) ws).proxy = some p)
    (hs : exec as (State.init p now) = some s) (hc : s.sh.p.shutdown = true)
    (hs' : exec bs s = some s') :
    s'.sh.p.shutdown = true ∧
    (∀ d, writesBy d s'.sh.trace ≤ writesBy d s.sh.trace + s.pendingWrites d) ∧
    (∀ d, s.pendingWrites d ≤ 1) ∧
    (∀ i, s.kaPc = .select → step (.run .keepAlive i) s = some { s with kaPc := .done }) ∧
    (∀ i, s.icsPc = .select → step (.run .icsReader i) s = some { s with icsPc := .done }) ∧
    (∀ i, s.wsPc = .select → step (.run .wsReader i) s = some { s with wsPc := .done }) := by
  have hI : Inv s := Inv_exec (Inv_init ics ws p now hp) hs
  obtain ⟨c1, c2, c3⟩ := hI.closed hc
  have hk : s.sh.panicked = false := (hI .keepAlive).noPanic
  obtain ⟨r1, r2⟩ := silent_exec hI hc hs'
  refine ⟨r1, fun d => le_trans (Nat.le_add_right _ _) (r2 d), s.pendingWrites_le_one,
    ?_, ?_, ?_⟩
  · intro i hpc
    simp [step, hk, hpc, stepKeepAlive, c3]
  · intro i hpc
    simp [step, hk, hpc, stepIcsReader, c2]
  · intro i hpc
    simp [step, hk, hpc, stepWsReader, c1]

/-- C6 amended, at a concrete execution: after the shutdown of the example
above, `wsReader` owes one write and makes it; nobody writes more. -/
theorem post_shutdown_writes_witness :
    ∃ s s', exec shutdownByKeepAlive (State.init Proxy.fresh 0) = some s ∧
      s.sh.p.shutdown = true ∧
      exec [.run .wsReader (.ok 0 []), .run .wsReader (.ok 0 [])] s = some s' ∧
      s'.sh.p.shutdown = true ∧
      (∀ d, writesBy d s'.sh.trace ≤ writesBy d s.sh.trace + s.pendingWrites d) ∧
      (∀ d, s.pendingWrites d ≤ 1) ∧
      (∀ i, s.kaPc = .select → step (.run .keepAlive i) s = some { s with kaPc := .done }) ∧
      (∀ i, s.icsPc = .select →
        step (.run .icsReader i) s = some { s with icsPc := .done }) ∧
      (∀ i, s.wsPc = .select → step (.run .wsReader i) s = some { s with wsPc := .done }) := by
  obtain ⟨s, hs⟩ : ∃ s, exec shutdownByKeepAlive
      (State.init Proxy.fresh 0) = some s := ⟨_, rfl⟩
  have hc : s.sh.p.shutdown = true := by
    have := Option.some.inj hs
    subst this
    rfl
  obtain ⟨s', hs'⟩ : ∃ s', exec [Action.run .wsReader (.ok 0 []),
      Action.run .wsReader (.ok 0 [])] s = some s' := by
    have := Option.some.inj hs
    subst this
    exact ⟨_, rfl⟩
  exact ⟨s, s', hs, hc, hs',
    post_shutdown_writes IcsConn.fresh WsConn.fresh Proxy.fresh 0 _ _ s s' rfl hs hc hs'⟩

/-! ## The liveness probe -/

theorem wrapInt64_of_range {x : Int} (h1 : -2 ^ 63 ≤ x) (h2 : x < 2 ^ 63) : wrapInt64 x = x := by
  unfold wrapInt64
  rw [Int.emod_eq_of_lt (by omega) (by omega)]
  omega

theorem stepShutdown_clock {d : Duty} {k k' : SdPc} {s s' : Shared}
    (hs : stepShutdown d k s = some (k', s')) :
    s'.now = s.now ∧ s'.lastResponse = s.lastResponse := by
  cases k
  case lock =>
    simp only [stepShutdown, Lock] at hs
    cases hm : s.p.mutex <;> simp [hm, Shared.log] at hs
    obtain ⟨rfl, rfl⟩ := hs
    exact ⟨rfl, rfl⟩
  case check =>
    simp only [stepShutdown] at hs
    split at hs <;> simp at hs <;> obtain ⟨rfl, rfl⟩ := hs <;> exact ⟨rfl, rfl⟩
  case ret => simp [stepShutdown] at hs
  all_goals
    simp only [stepShutdown, Option.some.injEq, Prod.mk.injEq] at hs
    obtain ⟨rfl, rfl⟩ := hs
    (try unfold closeChan)
    (try split)
  all_goals exact ⟨rfl, rfl⟩

theorem stepIcsReader_clock {pc pc' : IcsPc} {i : Input} {s s' : Shared}
    (hs : stepIcsReader pc i s = some (pc', s')) :
    s'.now = s.now ∧ s'.lastResponse = s.lastResponse := by
  cases pc
  case shutdown k =>
    simp only [stepIcsReader] at hs
    cases hk : stepShutdown .icsReader k s with
    | none => simp [hk] at hs
    | some r =>
      obtain ⟨k', s''⟩ := r
      cases k' <;> simp [hk] at hs <;> obtain ⟨rfl, rfl⟩ := hs <;>
        exact stepShutdown_clock hk
  case lock msg =>
    simp only [stepIcsReader, Lock] at hs
    cases hm : s.p.mutex <;> simp [hm, Shared.log] at hs
    obtain ⟨rfl, rfl⟩ := hs
    exact ⟨rfl, rfl⟩
  case readUntil =>
    cases i with
    | err =>
      simp only [stepIcsReader, Option.some.injEq, Prod.mk.injEq] at hs
      obtain ⟨rfl, rfl⟩ := hs
      exact ⟨rfl, rfl⟩
    | ok t data =>
      simp only [stepIcsReader, Option.some.injEq, Prod.mk.injEq] at hs
      obtain ⟨rfl, rfl⟩ := hs
      exact ⟨rfl, rfl⟩
  all_goals
    simp only [stepIcsReader] at hs
    (try split at hs)
  all_goals
    simp only [Option.some.injEq, Prod.mk.injEq, reduceCtorEq] at hs
  all_goals
    obtain ⟨rfl, rfl⟩ := hs
    exact ⟨rfl, rfl⟩

theorem stepWsReader_clock {pc pc' : WsPc} {i : Input} {s s' : Shared}
    (hs : stepWsReader pc i s = some (pc', s')) :
    s'.now = s.now ∧ s'.lastResponse = s.lastResponse := by
  cases pc
  case shutdown k =>
    simp only [stepWsReader] at hs
    cases hk : stepShutdown .wsReader k s with
    | none => simp [hk] at hs
    | some r =>
      obtain ⟨k', s''⟩ := r
      cases k' <;> simp [hk] at hs <;> obtain ⟨rfl, rfl⟩ := hs <;>
        exact stepShutdown_clock hk
  all_goals
    simp only [stepWsReader] at hs
    (try split at hs)
  all_goals
    simp only [Option.some.injEq, Prod.mk.injEq, reduceCtorEq] at hs
  all_goals
    obtain ⟨rfl, rfl⟩ := hs
    exact ⟨rfl, rfl⟩

theorem Unanswered_step {now0 : Int} {a : Action} {s s' : State} (h : Unanswered now0 s)
    (ha : a ≠ .pong) (hs : step a s = some s') : Unanswered now0 s' := by
  obtain ⟨h0, h1⟩ := h
  unfold step at hs
  split at hs
  · exact absurd hs (by simp)
  cases a with
  | pong => exact absurd rfl ha
  | tick dt =>
    simp only [Option.some.injEq] at hs
    subst hs
    refine ⟨by simp only; omega, fun hne => ?_⟩
    obtain ⟨t0, a1, a2, a3, a4, a5⟩ := h1 hne
    exact ⟨t0, a1, by simp only; omega, a3, a4, fun hc => by have := a5 hc; simp only; omega⟩
  | run d i =>
    cases d with
    | icsReader =>
      simp only [Option.map_eq_some'] at hs
      obtain ⟨⟨pc', sh'⟩, hr, rfl⟩ := hs
      obtain ⟨c1, c2⟩ := stepIcsReader_clock hr
      simp only [Unanswered, c1, c2]
      exact ⟨h0, h1⟩
    | wsReader =>
      simp only [Option.map_eq_some'] at hs
      obtain ⟨⟨pc', sh'⟩, hr, rfl⟩ := hs
      obtain ⟨c1, c2⟩ := stepWsReader_clock hr
      simp only [Unanswered, c1, c2]
      exact ⟨h0, h1⟩
    | keepAlive =>
      simp only [Option.map_eq_some'] at hs
      obtain ⟨⟨pc', sh'⟩, hr, rfl⟩ := hs
      simp only [Unanswered]
      cases hpc : s.kaPc with
      | shutdown k =>
        rw [hpc] at hr
        simp only [stepKeepAlive] at hr
        cases hk : stepShutdown .keepAlive k s.sh with
        | none => simp [hk] at hr
        | some r =>
          obtain ⟨k', s''⟩ := r
          obtain ⟨c1, c2⟩ := stepShutdown_clock hk
          obtain ⟨t0, a1, a2, a3, -, -⟩ := h1 (by rw [hpc]; simp)
          cases k' <;> simp [hk] at hr <;> obtain ⟨rfl, rfl⟩ := hr <;>
            exact ⟨by rw [c1]; exact h0, fun _ => ⟨t0, a1, by rw [c1]; exact a2,
              by rw [c2]; exact a3, by simp, by simp⟩⟩
      | start =>
        rw [hpc] at hr
        simp only [stepKeepAlive, Option.some.injEq, Prod.mk.injEq] at hr
        obtain ⟨rfl, rfl⟩ := hr
        exact ⟨h0, fun _ => ⟨s.sh.now, h0, le_refl _, rfl, by simp, by simp⟩⟩
      | sleep =>
        rw [hpc] at hr
        simp only [stepKeepAlive, Option.some.injEq, Prod.mk.injEq] at hr
        obtain ⟨rfl, rfl⟩ := hr
        obtain ⟨t0, a1, a2, a3, -, -⟩ := h1 (by rw [hpc]; simp)
        refine ⟨h0, fun _ => ⟨t0, a1, a2, a3, fun w hw => ?_, by simp⟩⟩
        simp only [KaPc.sleeping.injEq] at hw
        omega
      | sleeping wake =>
        rw [hpc] at hr
        simp only [stepKeepAlive] at hr
        split at hr
        · simp only [Option.some.injEq, Prod.mk.injEq] at hr
          obtain ⟨rfl, rfl⟩ := hr
          obtain ⟨t0, a1, a2, a3, a4, -⟩ := h1 (by rw [hpc]; simp)
          have := a4 wake hpc
          exact ⟨h0, fun _ => ⟨t0, a1, a2, a3, by simp, fun _ => by omega⟩⟩
        · exact absurd hr (by simp)
      | lock =>
        rw [hpc] at hr
        simp only [stepKeepAlive, Lock] at hr
        cases hm : s.sh.p.mutex <;> simp [hm, Shared.log] at hr
        obtain ⟨rfl, rfl⟩ := hr
        obtain ⟨t0, a1, a2, a3, -, -⟩ := h1 (by rw [hpc]; simp)
        exact ⟨h0, fun _ => ⟨t0, a1, a2, a3, by simp, by simp⟩⟩
      | setPongHandler =>
        rw [hpc] at hr
        simp only [stepKeepAlive, Option.some.injEq, Prod.mk.injEq] at hr
        obtain ⟨rfl, rfl⟩ := hr
        obtain ⟨t0, a1, a2, a3, -, -⟩ := h1 (by rw [hpc]; simp)
        exact ⟨h0, fun _ => ⟨t0, a1, a2, a3, by simp, by simp⟩⟩
      | writeMessage =>
        rw [hpc] at hr
        simp only [stepKeepAlive, Option.some.injEq, Prod.mk.injEq] at hr
        obtain ⟨rfl, rfl⟩ := hr
        obtain ⟨t0, a1, a2, a3, -, -⟩ := h1 (by rw [hpc]; simp)
        exact ⟨h0, fun _ => ⟨t0, a1, a2, a3, by simp, by simp⟩⟩
      | done =>
        rw [hpc] at hr
        simp [stepKeepAlive] at hr
      | select =>
        rw [hpc] at hr
        simp only [stepKeepAlive] at hr
        obtain ⟨t0, a1, a2, a3, -, -⟩ := h1 (by rw [hpc]; simp)
        split at hr <;> simp only [Option.some.injEq, Prod.mk.injEq] at hr <;>
          obtain ⟨rfl, rfl⟩ := hr <;>
          exact ⟨h0, fun _ => ⟨t0, a1, a2, a3, by simp, by simp⟩⟩
      | unlock err =>
        rw [hpc] at hr
        simp only [stepKeepAlive] at hr
        obtain ⟨t0, a1, a2, a3, -, -⟩ := h1 (by rw [hpc]; simp)
        split at hr <;> simp only [Option.some.injEq, Prod.mk.injEq] at hr <;>
          obtain ⟨rfl, rfl⟩ := hr <;>
          exact ⟨h0, fun _ => ⟨t0, a1, a2, a3, by simp, by simp⟩⟩
      | check =>
        rw [hpc] at hr
        simp only [stepKeepAlive] at hr
        obtain ⟨t0, a1, a2, a3, -, -⟩ := h1 (by rw [hpc]; simp)
        split at hr <;> simp only [Option.some.injEq, Prod.mk.injEq] at hr <;>
          obtain ⟨rfl, rfl⟩ := hr <;>
          exact ⟨h0, fun _ => ⟨t0, a1, a2, a3, by simp, by simp⟩⟩

theorem Unanswered_exec {now0 : Int} {as : List Action} {s s' : State}
    (h : Unanswered now0 s) (ha : Action.pong ∉ as) (hs : exec as s = some s') :
    Unanswered now0 s' := by
  induction as generalizing s with
  | nil =>
    simp only [exec, Option.some.injEq] at hs
    exact hs ▸ h
  | cons a as ih =>
    simp only [exec] at hs
    cases hstep : step a s with
    | none => simp [hstep] at hs
    | some s₁ =>
      rw [hstep] at hs
      exact ih (Unanswered_step h (fun e => ha (e ▸ List.mem_cons_self _ _)) hstep)
        (fun m => ha (List.mem_cons_of_mem _ m)) hs

/-- The session `NewProxy` has just built, created at `now0`, has had no pong. -/
theorem Unanswered_init (p : Proxy) (now0 : Int) : Unanswered now0 (State.init p now0) :=
  ⟨le_refl _, fun h => absurd rfl h⟩

/-- C5 as stated fails, in its time bound and at the end of the `int64` range.
* The pong never fires, the ping is written without error and the sleep lasts
  100 s (at least `keepAlive / 2`): when `keepAlive` reaches its first staleness
  check, 100 s after its start at time 0, the session is not shut down yet, and
  100 s is more than `keepAlive + timeout` = 85 s.
* With a start at the last nanosecond `UnixNano` can represent, `2 ^ 63 - 1`,
  and a sleep of 40 s, `now - timeout` wraps around to a negative `int64`: the
  first staleness check finds `lastResponse` not smaller and `keepAlive` goes
  back to its `select` instead of calling `Shutdown`. -/
theorem probe_bound_fails :
    (∃ s, exec (firstProbe 0 100000000000) (State.init Proxy.fresh 0) = some s ∧
      Action.pong ∉ firstProbe 0 100000000000 ∧ keepAlive / 2 ≤ (100000000000 : Int) ∧
      s.kaPc = .check ∧ s.sh.p.shutdown = false ∧ s.sh.lastResponse = 0 ∧
      s.sh.now = 100 * Second ∧ ¬ s.sh.now ≤ 0 + (keepAlive + timeout)) ∧
    (∃ s s', exec (firstProbe 0 40000000000) (State.init Proxy.fresh (2 ^ 63 - 1)) = some s ∧
      Action.pong ∉ firstProbe 0 40000000000 ∧ keepAlive / 2 ≤ (40000000000 : Int) ∧
      s.kaPc = .check ∧ s.sh.lastResponse = 2 ^ 63 - 1 ∧
      ¬ s.sh.lastResponse < UnixNano (s.sh.now - timeout) ∧
      step (.run .keepAlive (.ok 0 [])) s = some s' ∧ s'.kaPc = .select ∧
      s'.sh.p.shutdown = false) :=
  ⟨⟨_, rfl, by decide, by decide, rfl, rfl, rfl, by decide, by decide⟩,
    ⟨_, _, rfl, by decide, by decide, rfl, by decide, by decide, rfl, rfl, rfl⟩⟩

/-- The staleness check of `keepAlive` calls `Shutdown` whenever the last pong
is more than `timeout` old, however promptly that pong followed its ping. -/
theorem check_requires_recent_pong (s : Shared) (i : Input)
    (hlo : -2 ^ 63 ≤ s.now - timeout) (hhi : s.now - timeout < 2 ^ 63)
    (hold : s.lastResponse + timeout < s.now) :
    stepKeepAlive .check i s = some (.shutdown .lock, s) := by
  have e : UnixNano (s.now - timeout) = s.now - timeout := wrapInt64_of_range hlo hhi
  have hlt : s.lastResponse < UnixNano (s.now - timeout) := by rw [e]; omega
  simp [stepKeepAlive, hlt]

/-- C10, evaluated. A browser that answers the ping after one second is shut
down all the same: the ping is written at time 0, the pong is processed at
1 s (within `timeout` = 5 s), the sleep ends at 40 s, and the staleness check
compares `lastResponse` = 1 s with `now - timeout` = 35 s, so that `keepAlive`
calls `Shutdown`, which sets the flag and closes the browser connection. -/
theorem responsive_peer_is_shut_down :
    ∃ s₁ s₂ s₃, exec (responsivePeer.take 10) (State.init Proxy.fresh 0) = some s₁ ∧
      wsFrames s₁.sh.trace = [(PingMessage, keepalivePayload)] ∧
      s₁.sh.lastResponse = 1 * Second ∧ s₁.sh.lastResponse - 0 ≤ timeout ∧
      exec (responsivePeer.drop 10) s₁ = some s₂ ∧
      s₂.sh.now = 40 * Second ∧ s₂.sh.lastResponse = 1 * Second ∧
      s₂.kaPc = .shutdown .lock ∧
      runDuty .keepAlive (List.replicate 9 (.ok 0 [])) s₂ = some s₃ ∧
      s₃.kaPc = .done ∧ s₃.sh.p.shutdown = true ∧ s₃.sh.p.ws.closed = true ∧
      wsCloses s₃.sh.trace = 1 :=
  ⟨_, _, _, rfl, by decide, rfl, by decide, rfl, rfl, rfl, rfl, rfl, rfl, rfl, rfl, by decide⟩

/-! ## Errors of a connection -/

/-- A statement of `Shutdown` executed by `d` is no operation of any loop, and
it is a `Lock` by `d` exactly when it is the first statement. -/
theorem stepShutdown_ops {d : Duty} {k k' : SdPc} {s s' : Shared}
    (hs : stepShutdown d k s = some (k', s')) (e : Duty) :
    ownOps e s'.trace = ownOps e s.trace ∧
      (e ≠ d → locksBy e s'.trace = locksBy e s.trace) ∧
      locksBy d s'.trace + (if k' = .lock then 1 else 0) =
        locksBy d s.trace + (if k = .lock then 1 else 0) := by
  cases k
  case lock =>
    simp only [stepShutdown, Lock] at hs
    cases hm : s.p.mutex <;> simp [hm, Shared.log] at hs
    obtain ⟨rfl, rfl⟩ := hs
    refine ⟨?_, fun he => ?_, ?_⟩ <;>
      simp [ownOps, locksBy, List.countP_append, List.countP_cons]
    exact fun h => he h.symm
  case check =>
    simp only [stepShutdown] at hs
    split at hs <;> simp at hs <;> obtain ⟨rfl, rfl⟩ := hs <;> simp
  case ret => simp [stepShutdown] at hs
  all_goals
    simp only [stepShutdown, Option.some.injEq, Prod.mk.injEq] at hs
    obtain ⟨rfl, rfl⟩ := hs
    simp [closeChan, apply_ite Shared.trace, ownOps, locksBy, List.countP_append,
      List.countP_cons, Shared.log, wsWriteMessage, wsClose, setShutdown, Unlock, CloseMessage]

/-- A statement of `keepAlive`: it adds no operation and no `Lock` of another
goroutine to the log; once `keepAlive` has left its loop it stays out, adds no
operation of its loop and executes the one `Lock` of its `Shutdown`; and a
failed call makes it leave the loop. -/
theorem stepKeepAlive_ops {pc pc' : KaPc} {i : Input} {s s' : Shared}
    (hs : stepKeepAlive pc i s = some (pc', s')) :
    (∀ e, e ≠ .keepAlive → ownOps e s'.trace = ownOps e s.trace ∧
      locksBy e s'.trace = locksBy e s.trace) ∧
    (pc.leaving = true → pc'.leaving = true ∧
      ownOps .keepAlive s'.trace = ownOps .keepAlive s.trace ∧
      locksBy .keepAlive s'.trace + pc'.locksAhead = locksBy .keepAlive s.trace + pc.locksAhead) ∧
    (pc.atCall = true → i = .err → pc'.leaving = true) := by
  cases pc
  case shutdown k =>
    simp only [stepKeepAlive] at hs
    cases hk : stepShutdown .keepAlive k s with
    | none => simp [hk] at hs
    | some r =>
      obtain ⟨k', s''⟩ := r
      have h := stepShutdown_ops hk
      have hs2 : s' = s'' ∧ pc' = (if k' = .ret then .done else .shutdown k') := by
        cases k' <;> simp [hk] at hs <;> obtain ⟨rfl, rfl⟩ := hs <;> simp
      obtain ⟨rfl, rfl⟩ := hs2
      refine ⟨fun e he => ⟨(h e).1, (h e).2.1 he⟩, fun _ => ?_, fun hc => ?_⟩
      · have h2 := (h .keepAlive).2.2
        have h1 := (h .keepAlive).1
        cases k' <;> cases k <;> simp_all [KaPc.leaving, KaPc.locksAhead]
      · simp [KaPc.atCall] at hc
  all_goals
    obtain ⟨⟨ws, ics, kc, ic, wc, fl, m⟩, now, lr, tr, pk⟩ := s
    (try cases m)
  all_goals
    simp [stepKeepAlive, Lock, Unlock, Shared.log, wsWriteMessage, icsWrite, Input.isErr] at hs
  all_goals
    (try split at hs)
  all_goals
    (try simp at hs)
  all_goals
    first
      | obtain ⟨rfl, rfl⟩ := hs
      | obtain ⟨-, rfl, rfl⟩ := hs
  all_goals
    refine ⟨fun e he => ?_, ?_, ?_⟩
  all_goals
    (try cases e)
  all_goals
    simp_all [ownOps, locksBy, List.countP_append, List.countP_cons, KaPc.leaving,
      KaPc.locksAhead, KaPc.atCall, TextMessage, PingMessage, CloseMessage]

/-- A statement of `icsReader`: it adds no operation and no `Lock` of another
goroutine to the log; once `icsReader` has left its loop it stays out, adds no
operation of its loop and executes the one `Lock` of its `Shutdown`; and a
failed call makes it leave the loop. -/
theorem stepIcsReader_ops {pc pc' : IcsPc} {i : Input} {s s' : Shared}
    (hs : stepIcsReader pc i s = some (pc', s')) :
    (∀ e, e ≠ .icsReader → ownOps e s'.trace = ownOps e s.trace ∧
      locksBy e s'.trace = locksBy e s.trace) ∧
    (pc.leaving = true → pc'.leaving = true ∧
      ownOps .icsReader s'.trace = ownOps .icsReader s.trace ∧
      locksBy .icsReader s'.trace + pc'.locksAhead = locksBy .icsReader s.trace + pc.locksAhead) ∧
    (pc.atCall = true → i = .err → pc'.leaving = true) := by
  cases pc
  case shutdown k =>
    simp only [stepIcsReader] at hs
    cases hk : stepShutdown .icsReader k s with
    | none => simp [hk] at hs
    | some r =>
      obtain ⟨k', s''⟩ := r
      have h := stepShutdown_ops hk
      have hs2 : s' = s'' ∧ pc' = (if k' = .ret then .done else .shutdown k') := by
        cases k' <;> simp [hk] at hs <;> obtain ⟨rfl, rfl⟩ := hs <;> simp
      obtain ⟨rfl, rfl⟩ := hs2
      refine ⟨fun e he => ⟨(h e).1, (h e).2.1 he⟩, fun _ => ?_, fun hc => ?_⟩
      · have h2 := (h .icsReader).2.2
        have h1 := (h .icsReader).1
        cases k' <;> cases k <;> simp_all [IcsPc.leaving, IcsPc.locksAhead]
      · simp [IcsPc.atCall] at hc
  all_goals
    obtain ⟨⟨ws, ics, kc, ic, wc, fl, m⟩, now, lr, tr, pk⟩ := s
    (try cases m)
  all_goals
    simp [stepIcsReader, Lock, Unlock, Shared.log, wsWriteMessage, icsWrite, Input.isErr] at hs
  all_goals
    (try split at hs)
  all_goals
    (try simp at hs)
  all_goals
    obtain ⟨rfl, rfl⟩ := hs
  all_goals
    refine ⟨fun e he => ?_, ?_, ?_⟩
  all_goals
    (try cases e)
  all_goals
    simp_all [ownOps, locksBy, List.countP_append, List.countP_cons, IcsPc.leaving,
      IcsPc.locksAhead, IcsPc.atCall, TextMessage, PingMessage, CloseMessage]

/-- A statement of `wsReader`: it adds no operation and no `Lock` of another
goroutine to the log; once `wsReader` has left its loop it stays out, adds no
operation of its loop and executes the one `Lock` of its `Shutdown`; and a
failed call makes it leave the loop. -/
theorem stepWsReader_ops {pc pc' : WsPc} {i : Input} {s s' : Shared}
    (hs : stepWsReader pc i s = some (pc', s')) :
    (∀ e, e ≠ .wsReader → ownOps e s'.trace = ownOps e s.trace ∧
      locksBy e s'.trace = locksBy e s.trace) ∧
    (pc.leaving = true → pc'.leaving = true ∧
      ownOps .wsReader s'.trace = ownOps .wsReader s.trace ∧
      locksBy .wsReader s'.trace + pc'.locksAhead = locksBy .wsReader s.trace + pc.locksAhead) ∧
    (pc.atCall = true → i = .err → pc'.leaving = true) := by
  cases pc
  case shutdown k =>
    simp only [stepWsReader] at hs
    cases hk : stepShutdown .wsReader k s with
    | none => simp [hk] at hs
    | some r =>
      obtain ⟨k', s''⟩ := r
      have h := stepShutdown_ops hk
      have hs2 : s' = s'' ∧ pc' = (if k' = .ret then .done else .shutdown k') := by
        cases k' <;> simp [hk] at hs <;> obtain ⟨rfl, rfl⟩ := hs <;> simp
      obtain ⟨rfl, rfl⟩ := hs2
      refine ⟨fun e he => ⟨(h e).1, (h e).2.1 he⟩, fun _ => ?_, fun hc => ?_⟩
      · have h2 := (h .wsReader).2.2
        have h1 := (h .wsReader).1
        cases k' <;> cases k <;> simp_all [WsPc.leaving, WsPc.locksAhead]
      · simp [WsPc.atCall] at hc
  all_goals
    obtain ⟨⟨ws, ics, kc, ic, wc, fl, m⟩, now, lr, tr, pk⟩ := s
    cases i
  all_goals
    simp [stepWsReader, Lock, Unlock, Shared.log, wsWriteMessage, icsWrite, Input.isErr] at hs
  all_goals
    (try split at hs)
  all_goals
    (try simp at hs)
  all_goals
    obtain ⟨rfl, rfl⟩ := hs
  all_goals
    refine ⟨fun e he => ?_, ?_, ?_⟩
  all_goals
    (try cases e)
  all_goals
    simp_all [ownOps, locksBy, List.countP_append, List.countP_cons, WsPc.leaving,
      WsPc.locksAhead, WsPc.atCall, TextMessage, PingMessage, CloseMessage]

/-- A goroutine that has left its loop stays out under every action of the
session, adds no operation of its loop to the log, and executes the `Lock` of
its `Shutdown` once. -/
theorem leaving_step (d : Duty) {a : Action} {s s' : State} (h : s.leaving d = true)
    (hs : step a s = some s') :
    s'.leaving d = true ∧ ownOps d s'.sh.trace = ownOps d s.sh.trace ∧
      locksBy d s'.sh.trace + s'.locksAhead d = locksBy d s.sh.trace + s.locksAhead d := by
  unfold step at hs
  split at hs
  · exact absurd hs (by simp)
  cases a with
  | run e i =>
    cases e with
    | keepAlive =>
      simp only [Option.map_eq_some'] at hs
      obtain ⟨⟨pc', sh'⟩, hr, rfl⟩ := hs
      obtain ⟨r1, r2, -⟩ := stepKeepAlive_ops hr
      cases d
      · exact r2 h
      · exact ⟨h, (r1 _ (by decide)).1, by simp [State.locksAhead, (r1 .icsReader (by decide)).2]⟩
      · exact ⟨h, (r1 _ (by decide)).1, by simp [State.locksAhead, (r1 .wsReader (by decide)).2]⟩
    | icsReader =>
      simp only [Option.map_eq_some'] at hs
      obtain ⟨⟨pc', sh'⟩, hr, rfl⟩ := hs
      obtain ⟨r1, r2, -⟩ := stepIcsReader_ops hr
      cases d
      · exact ⟨h, (r1 _ (by decide)).1, by simp [State.locksAhead, (r1 .keepAlive (by decide)).2]⟩
      · exact r2 h
      · exact ⟨h, (r1 _ (by decide)).1, by simp [State.locksAhead, (r1 .wsReader (by decide)).2]⟩
    | wsReader =>
      simp only [Option.map_eq_some'] at hs
      obtain ⟨⟨pc', sh'⟩, hr, rfl⟩ := hs
      obtain ⟨r1, r2, -⟩ := stepWsReader_ops hr
      cases d
      · exact ⟨h, (r1 _ (by decide)).1, by simp [State.locksAhead, (r1 .keepAlive (by decide)).2]⟩
      · exact ⟨h, (r1 _ (by decide)).1, by simp [State.locksAhead, (r1 .icsReader (by decide)).2]⟩
      · exact r2 h
  | pong =>
    by_cases hr : s.wsPc = .readMessage
    · rw [if_pos hr] at hs
      simp only [Option.some.injEq] at hs
      subst hs
      by_cases hh : s.sh.p.ws.pongHandler = true
      · rw [if_pos hh]
        cases d <;> exact ⟨h, rfl, rfl⟩
      · rw [if_neg hh]
        exact ⟨h, rfl, rfl⟩
    · rw [if_neg hr] at hs
      exact absurd hs (by simp)
  | tick dt =>
    simp only [Option.some.injEq] at hs
    subst hs
    cases d <;> exact ⟨h, rfl, rfl⟩

theorem leaving_exec (d : Duty) {as : List Action} {s s' : State} (h : s.leaving d = true)
    (hs : exec as s = some s') :
    s'.leaving d = true ∧ ownOps d s'.sh.trace = ownOps d s.sh.trace ∧
      locksBy d s'.sh.trace + s'.locksAhead d = locksBy d s.sh.trace + s.locksAhead d := by
  induction as generalizing s with
  | nil =>
    simp only [exec, Option.some.injEq] at hs
    subst hs
    exact ⟨h, rfl, rfl⟩
  | cons a as ih =>
    simp only [exec] at hs
    cases ha : step a s with
    | none => simp [ha] at hs
    | some s₁ =>
      rw [ha] at hs
      obtain ⟨a1, a2, a3⟩ := leaving_step d h ha
      obtain ⟨b1, b2, b3⟩ := ih a1 hs
      exact ⟨b1, b2.trans a2, b3.trans a3⟩

/-- A failed call on a connection makes the goroutine leave its loop, with the
one `Lock` of `Shutdown` ahead. -/
theorem failed_call_leaves (d : Duty) {s s' : State} (hc : s.atCall d = true)
    (hs : step (.run d .err) s = some s') :
    s'.leaving d = true ∧ s'.locksAhead d = 1 := by
  unfold step at hs
  split at hs
  · exact absurd hs (by simp)
  obtain ⟨sh, ka, ic, w⟩ := s
  cases d
  · cases ka <;> simp [State.atCall, KaPc.atCall] at hc
    simp [stepKeepAlive, Input.isErr] at hs
    subst hs
    simp [State.leaving, State.locksAhead, KaPc.leaving, KaPc.locksAhead]
  · cases ic <;> simp [State.atCall, IcsPc.atCall] at hc
    all_goals
      simp [stepIcsReader, Input.isErr] at hs
      subst hs
      simp [State.leaving, State.locksAhead, IcsPc.leaving, IcsPc.locksAhead]
  · cases w <;> simp [State.atCall, WsPc.atCall] at hc
    all_goals
      simp [stepWsReader] at hs
      subst hs
      simp [State.leaving, State.locksAhead, WsPc.leaving, WsPc.locksAhead]

/-! ## Progress -/

/-- A goroutine inside `Shutdown` that holds the mutex, or stands at its
`Lock` with the mutex free, gets to the end of `Shutdown` in at most nine
statements: the mutex is free again and, when it has come through the test of
the flag, the flag is set. -/
theorem runShutdown_completes {d : Duty} {k : SdPc} {s : Shared}
    (h : LocalInv d k.region s) (hk : k.region ≠ .idle ∨ (k = .lock ∧ s.p.mutex = none)) :
    ∃ s', runShutdown d 9 k s = some s' ∧ s'.p.mutex = none ∧
      (k ≠ .unlock → s'.p.shutdown = true) := by
  obtain ⟨⟨ws, ics, kc, ic, wc, fl, m⟩, now, lr, tr, pk⟩ := s
  obtain ⟨h1, h2, h3, h4, h5⟩ := h
  simp only at h1 h2 h3 h4 h5 hk
  subst h1
  cases k <;>
    simp only [SdPc.region, Region.ok, Steady, ne_eq, not_true_eq_false, false_iff,
      reduceCtorEq, not_false_eq_true, true_iff, false_or, true_or, false_and, or_false,
      true_and] at h2 h3 hk
  case' lock =>
    subst hk
    rcases h4 rfl with ⟨h, h', h'', h'''⟩ | ⟨h, h', h'', h'''⟩ <;> simp only at h h' h'' h''' <;>
      subst h h' h'' h'''
  case' check => rcases h3 with ⟨rfl, rfl, rfl, rfl⟩ | ⟨rfl, rfl, rfl, rfl⟩
  case' unlock => rcases h3 with ⟨rfl, rfl, rfl, rfl⟩ | ⟨rfl, rfl, rfl, rfl⟩
  case' writeClose => obtain ⟨rfl, rfl, rfl, rfl⟩ := h3
  case' wsClose => obtain ⟨rfl, rfl, rfl, rfl⟩ := h3
  case' closeWsReaderChannel => obtain ⟨rfl, rfl, rfl, rfl⟩ := h3
  case' closeIcsReaderChannel => obtain ⟨rfl, rfl, rfl, rfl⟩ := h3
  case' closeKeepAliveChannel => obtain ⟨rfl, rfl, rfl, rfl⟩ := h3
  case' setFlag => obtain ⟨rfl, rfl, rfl, rfl⟩ := h3
  all_goals
    simp [runShutdown, stepShutdown, Lock, Unlock, Shared.log, wsWriteMessage, wsClose,
      closeChan, setShutdown, Proxy.chanClosed, Proxy.setChanClosed]

/-- The statements of `runShutdown` by `keepAlive`, as actions of the session. -/
theorem runShutdown_keepAlive (i : Input) (n : Nat) :
    ∀ (k : SdPc) (s : State) (sh' : Shared), runShutdown .keepAlive n k s.sh = some sh' →
      s.kaPc = .shutdown k →
      ∃ m, runDuty .keepAlive (List.replicate m i) s =
        some { s with kaPc := .done, sh := sh' } := by
  induction n with
  | zero => intro k s sh' h; simp [runShutdown] at h
  | succ n ih =>
    intro k s sh' h hpc
    simp only [runShutdown] at h
    split at h
    · exact absurd h (by simp)
    rename_i hp
    cases hk : stepShutdown .keepAlive k s.sh with
    | none => simp [hk] at h
    | some r =>
      obtain ⟨k', s''⟩ := r
      simp only [hk] at h
      by_cases hr : k' = .ret
      · subst hr
        simp only [if_true, Option.some.injEq] at h
        subst h
        refine ⟨1, ?_⟩
        simp [runDuty, exec, step, hp, hpc, stepKeepAlive, hk]
      · rw [if_neg hr] at h
        obtain ⟨m, hm⟩ := ih k' { s with kaPc := .shutdown k', sh := s'' } sh' h rfl
        refine ⟨m + 1, ?_⟩
        have h1 : step (.run .keepAlive i) s = some { s with kaPc := .shutdown k', sh := s'' } := by
          cases k' <;> simp_all [step, stepKeepAlive]
        simp only [runDuty, List.replicate, List.map, exec, h1]
        exact hm

/-- The statements of `runShutdown` by `icsReader`, as actions of the session. -/
theorem runShutdown_icsReader (i : Input) (n : Nat) :
    ∀ (k : SdPc) (s : State) (sh' : Shared), runShutdown .icsReader n k s.sh = some sh' →
      s.icsPc = .shutdown k →
      ∃ m, runDuty .icsReader (List.replicate m i) s =
        some { s with icsPc := .done, sh := sh' } := by
  induction n with
  | zero => intro k s sh' h; simp [runShutdown] at h
  | succ n ih =>
    intro k s sh' h hpc
    simp only [runShutdown] at h
    split at h
    · exact absurd h (by simp)
    rename_i hp
    cases hk : stepShutdown .icsReader k s.sh with
    | none => simp [hk] at h
    | some r =>
      obtain ⟨k', s''⟩ := r
      simp only [hk] at h
      by_cases hr : k' = .ret
      · subst hr
        simp only [if_true, Option.some.injEq] at h
        subst h
        refine ⟨1, ?_⟩
        simp [runDuty, exec, step, hp, hpc, stepIcsReader, hk]
      · rw [if_neg hr] at h
        obtain ⟨m, hm⟩ := ih k' { s with icsPc := .shutdown k', sh := s'' } sh' h rfl
        refine ⟨m + 1, ?_⟩
        have h1 : step (.run .icsReader i) s =
            some { s with icsPc := .shutdown k', sh := s'' } := by
          cases k' <;> simp_all [step, stepIcsReader]
        simp only [runDuty, List.replicate, List.map, exec, h1]
        exact hm

/-- The statements of `runShutdown` by `wsReader`, as actions of the session. -/
theorem runShutdown_wsReader (i : Input) (n : Nat) :
    ∀ (k : SdPc) (s : State) (sh' : Shared), runShutdown .wsReader n k s.sh = some sh' →
      s.wsPc = .shutdown k →
      ∃ m, runDuty .wsReader (List.replicate m i) s = some { s with wsPc := .done, sh := sh' } := by
  induction n with
  | zero => intro k s sh' h; simp [runShutdown] at h
  | succ n ih =>
    intro k s sh' h hpc
    simp only [runShutdown] at h
    split at h
    · exact absurd h (by simp)
    rename_i hp
    cases hk : stepShutdown .wsReader k s.sh with
    | none => simp [hk] at h
    | some r =>
      obtain ⟨k', s''⟩ := r
      simp only [hk] at h
      by_cases hr : k' = .ret
      · subst hr
        simp only [if_true, Option.some.injEq] at h
        subst h
        refine ⟨1, ?_⟩
        simp [runDuty, exec, step, hp, hpc, stepWsReader, hk]
      · rw [if_neg hr] at h
        obtain ⟨m, hm⟩ := ih k' { s with wsPc := .shutdown k', sh := s'' } sh' h rfl
        refine ⟨m + 1, ?_⟩
        have h1 : step (.run .wsReader i) s = some { s with wsPc := .shutdown k', sh := s'' } := by
          cases k' <;> simp_all [step, stepWsReader]
        simp only [runDuty, List.replicate, List.map, exec, h1]
        exact hm

theorem exec_append (as bs : List Action) (s : State) :
    exec (as ++ bs) s = (exec as s).bind (exec bs) := by
  induction as generalizing s with
  | nil => rfl
  | cons a as ih =>
    simp only [List.cons_append, exec]
    cases step a s with
    | none => rfl
    | some s₁ => exact ih s₁

/-- A statement of one goroutine does not move another goroutine. -/
theorem step_entering_other {e d : Duty} {i : Input} {s s' : State} (hne : d ≠ e)
    (hs : step (.run e i) s = some s') : s'.entering d = s.entering d := by
  unfold step at hs
  split at hs
  · exact absurd hs (by simp)
  cases e <;> simp only [Option.map_eq_some'] at hs <;> obtain ⟨r, -, rfl⟩ := hs <;>
    cases d <;> first | rfl | exact absurd rfl hne

theorem runDuty_entering_other {e d : Duty} (hne : d ≠ e) (is : List Input) :
    ∀ {s s' : State}, runDuty e is s = some s' → s'.entering d = s.entering d := by
  induction is with
  | nil =>
    intro s s' hs
    simp only [runDuty, List.map, exec, Option.some.injEq] at hs
    rw [hs]
  | cons i is ih =>
    intro s s' hs
    simp only [runDuty, List.map, exec] at hs
    cases h1 : step (.run e i) s with
    | none => simp [h1] at hs
    | some s₁ =>
      rw [h1] at hs
      exact (ih hs).trans (step_entering_other hne h1)

theorem stepKeepAlive_now {pc pc' : KaPc} {i : Input} {s s' : Shared}
    (hs : stepKeepAlive pc i s = some (pc', s')) : s'.now = s.now := by
  cases pc
  case shutdown k =>
    simp only [stepKeepAlive] at hs
    cases hk : stepShutdown .keepAlive k s with
    | none => simp [hk] at hs
    | some r =>
      obtain ⟨k', s''⟩ := r
      cases k' <;> simp [hk] at hs <;> obtain ⟨rfl, rfl⟩ := hs <;>
        exact (stepShutdown_clock hk).1
  case lock =>
    simp only [stepKeepAlive, Lock] at hs
    cases hm : s.p.mutex <;> simp [hm, Shared.log] at hs
    obtain ⟨rfl, rfl⟩ := hs
    rfl
  all_goals
    simp only [stepKeepAlive] at hs
    (try split at hs)
  all_goals
    simp only [Option.some.injEq, Prod.mk.injEq, reduceCtorEq] at hs
  all_goals
    obtain ⟨rfl, rfl⟩ := hs
    rfl

/-- A statement of a goroutine takes no time. -/
theorem step_run_now {d : Duty} {i : Input} {s s' : State}
    (hs : step (.run d i) s = some s') : s'.sh.now = s.sh.now := by
  unfold step at hs
  split at hs
  · exact absurd hs (by simp)
  cases d <;> simp only [Option.map_eq_some'] at hs <;> obtain ⟨⟨pc', sh'⟩, hr, rfl⟩ := hs
  · exact stepKeepAlive_now hr
  · exact (stepIcsReader_clock hr).1
  · exact (stepWsReader_clock hr).1

theorem runDuty_now {d : Duty} (is : List Input) :
    ∀ {s s' : State}, runDuty d is s = some s' → s'.sh.now = s.sh.now := by
  induction is with
  | nil =>
    intro s s' hs
    simp only [runDuty, List.map, exec, Option.some.injEq] at hs
    rw [hs]
  | cons i is ih =>
    intro s s' hs
    simp only [runDuty, List.map, exec] at hs
    cases h1 : step (.run d i) s with
    | none => simp [h1] at hs
    | some s₁ =>
      rw [h1] at hs
      exact (ih hs).trans (step_run_now h1)

/-- The goroutine that holds the mutex can always go on, alone, until it has
released it. -/
theorem holder_releases {s : State} (hI : Inv s) (e : Duty) (hm : s.sh.p.mutex = some e)
    (i : Input) :
    ∃ m s', runDuty e (List.replicate m i) s = some s' ∧ s'.sh.p.mutex = none := by
  have hp : s.sh.panicked = false := (hI e).noPanic
  have hr : s.region e ≠ .idle := (hI e).holder.mpr hm
  cases e with
  | keepAlive =>
    cases hpc : s.kaPc with
    | shutdown k =>
      have hl := hI .keepAlive
      simp only [State.region, hpc, KaPc.region] at hl hr
      obtain ⟨sh', h1, h2, -⟩ := runShutdown_completes hl (Or.inl hr)
      obtain ⟨m, h3⟩ := runShutdown_keepAlive i 9 k s sh' h1 hpc
      exact ⟨m, _, h3, h2⟩
    | writeMessage =>
      refine ⟨2, ?_⟩
      cases i <;> simp [runDuty, exec, step, hp, hpc, stepKeepAlive, Input.isErr,
        wsWriteMessage, Shared.log, Unlock]
    | unlock b =>
      refine ⟨1, ?_⟩
      cases b <;> simp [runDuty, exec, step, hp, hpc, stepKeepAlive, Shared.log, Unlock]
    | _ => simp [State.region, hpc, KaPc.region] at hr
  | icsReader =>
    cases hpc : s.icsPc with
    | shutdown k =>
      have hl := hI .icsReader
      simp only [State.region, hpc, IcsPc.region] at hl hr
      obtain ⟨sh', h1, h2, -⟩ := runShutdown_completes hl (Or.inl hr)
      obtain ⟨m, h3⟩ := runShutdown_icsReader i 9 k s sh' h1 hpc
      exact ⟨m, _, h3, h2⟩
    | writeMessage msg =>
      refine ⟨2, ?_⟩
      cases i <;> simp [runDuty, exec, step, hp, hpc, stepIcsReader, Input.isErr,
        wsWriteMessage, Shared.log, Unlock]
    | unlock b =>
      refine ⟨1, ?_⟩
      cases b <;> simp [runDuty, exec, step, hp, hpc, stepIcsReader, Shared.log, Unlock]
    | _ => simp [State.region, hpc, IcsPc.region] at hr
  | wsReader =>
    cases hpc : s.wsPc with
    | shutdown k =>
      have hl := hI .wsReader
      simp only [State.region, hpc, WsPc.region] at hl hr
      obtain ⟨sh', h1, h2, -⟩ := runShutdown_completes hl (Or.inl hr)
      obtain ⟨m, h3⟩ := runShutdown_wsReader i 9 k s sh' h1 hpc
      exact ⟨m, _, h3, h2⟩
    | _ => simp [State.region, hpc, WsPc.region] at hr

/-- A goroutine at the first statement of `Shutdown`, the mutex being free,
runs `Shutdown` to the end and returns; the flag is then set. -/
theorem enters_and_returns {s : State} (hI : Inv s) (d : Duty) (hm : s.sh.p.mutex = none)
    (he : s.entering d = true) (i : Input) :
    ∃ m s', runDuty d (List.replicate m i) s = some s' ∧ s'.returned d = true ∧
      s'.sh.p.shutdown = true := by
  cases d with
  | keepAlive =>
    have hpc : s.kaPc = .shutdown .lock := by simpa [State.entering] using he
    have hl := hI .keepAlive
    simp only [State.region, hpc, KaPc.region] at hl
    obtain ⟨sh', h1, -, h2⟩ := runShutdown_completes hl (Or.inr ⟨rfl, hm⟩)
    obtain ⟨m, h3⟩ := runShutdown_keepAlive i 9 .lock s sh' h1 hpc
    exact ⟨m, _, h3, by simp [State.returned], h2 (by decide)⟩
  | icsReader =>
    have hpc : s.icsPc = .shutdown .lock := by simpa [State.entering] using he
    have hl := hI .icsReader
    simp only [State.region, hpc, IcsPc.region] at hl
    obtain ⟨sh', h1, -, h2⟩ := runShutdown_completes hl (Or.inr ⟨rfl, hm⟩)
    obtain ⟨m, h3⟩ := runShutdown_icsReader i 9 .lock s sh' h1 hpc
    exact ⟨m, _, h3, by simp [State.returned], h2 (by decide)⟩
  | wsReader =>
    have hpc : s.wsPc = .shutdown .lock := by simpa [State.entering] using he
    have hl := hI .wsReader
    simp only [State.region, hpc, WsPc.region] at hl
    obtain ⟨sh', h1, -, h2⟩ := runShutdown_completes hl (Or.inr ⟨rfl, hm⟩)
    obtain ⟨m, h3⟩ := runShutdown_wsReader i 9 .lock s sh' h1 hpc
    exact ⟨m, _, h3, by simp [State.returned], h2 (by decide)⟩

/-- From a reachable state in which goroutine `d` stands at the first
statement of `Shutdown`, there is a continuation after which `d` has returned
and the flag is set: the holder of the mutex, if any, releases it, then `d`
runs `Shutdown`. -/
theorem returns_after_entering {s : State} (hI : Inv s) (d : Duty)
    (he : s.entering d = true) (i : Input) :
    ∃ bs s', exec bs s = some s' ∧ s'.returned d = true ∧ s'.sh.p.shutdown = true ∧
      s'.sh.now = s.sh.now := by
  cases hm : s.sh.p.mutex with
  | none =>
    obtain ⟨m, s', h1, h2, h3⟩ := enters_and_returns hI d hm he i
    exact ⟨_, s', h1, h2, h3, runDuty_now _ h1⟩
  | some e =>
    have hne : d ≠ e := by
      intro hde
      subst hde
      have hr := (hI d).holder.mpr hm
      cases d <;> simp [State.entering] at he <;>
        simp [State.region, he, KaPc.region, IcsPc.region, WsPc.region, SdPc.region] at hr
    obtain ⟨m, s₁, h1, h2⟩ := holder_releases hI e hm i
    have hI₁ : Inv s₁ := Inv_exec hI h1
    have he₁ : s₁.entering d = true := (runDuty_entering_other hne _ h1).trans he
    obtain ⟨m', s', h3, h4, h5⟩ := enters_and_returns hI₁ d h2 he₁ i
    have hn : s'.sh.now = s.sh.now := (runDuty_now _ h3).trans (runDuty_now _ h1)
    simp only [runDuty] at h1 h3
    refine ⟨(List.replicate m i).map (Action.run e) ++ (List.replicate m' i).map (Action.run d),
      s', ?_, h4, h5, hn⟩
    rw [exec_append, h1]
    exact h3

/-- From a reachable state in which goroutine `d` has left its loop and has
the `Lock` of `Shutdown` ahead, there is a continuation after which `d` has
returned and the flag is set. -/
theorem returns_after_leaving {s : State} (hI : Inv s) (d : Duty)
    (ha : s.locksAhead d = 1) (i : Input) :
    ∃ bs s', exec bs s = some s' ∧ s'.returned d = true ∧ s'.sh.p.shutdown = true ∧
      s'.sh.now = s.sh.now := by
  by_cases he : s.entering d = true
  · exact returns_after_entering hI d he i
  · have hp : s.sh.panicked = false := (hI d).noPanic
    obtain ⟨s₁, h1, h2⟩ : ∃ s₁, step (.run d i) s = some s₁ ∧ s₁.entering d = true := by
      cases d with
      | keepAlive =>
        cases hpc : s.kaPc with
        | unlock b =>
          cases b <;> simp [State.locksAhead, hpc, KaPc.locksAhead] at ha
          simp [step, hp, hpc, stepKeepAlive, State.entering]
        | shutdown k =>
          cases k <;> simp [State.locksAhead, hpc, KaPc.locksAhead] at ha
          simp [State.entering, hpc] at he
        | _ => simp [State.locksAhead, hpc, KaPc.locksAhead] at ha
      | icsReader =>
        cases hpc : s.icsPc with
        | unlock b =>
          cases b <;> simp [State.locksAhead, hpc, IcsPc.locksAhead] at ha
          simp [step, hp, hpc, stepIcsReader, State.entering]
        | shutdown k =>
          cases k <;> simp [State.locksAhead, hpc, IcsPc.locksAhead] at ha
          simp [State.entering, hpc] at he
        | _ => simp [State.locksAhead, hpc, IcsPc.locksAhead] at ha
      | wsReader =>
        cases hpc : s.wsPc with
        | shutdown k =>
          cases k <;> simp [State.locksAhead, hpc, WsPc.locksAhead] at ha
          simp [State.entering, hpc] at he
        | _ => simp [State.locksAhead, hpc, WsPc.locksAhead] at ha
    obtain ⟨bs, s', h3, h4, h5, h6⟩ := returns_after_entering (Inv_step hI h1) d h2 i
    refine ⟨.run d i :: bs, s', ?_, h4, h5, h6.trans (step_run_now h1)⟩
    simp only [exec, h1]
    exact h3

/-! ## Errors of a connection are fatal -/

/-- C9. Every error of a connection is fatal for the session, without retry.
Take any state of a session, any goroutine `d` standing at a read or a write
on one of the two connections, and let that call return an error.
* The goroutine has then left its loop: it stands at the entry of `Shutdown`
  (before the `Unlock` that precedes it, when the call was made under the
  mutex), with the one `Lock` of `Shutdown` ahead.
* Under every continuation of the session, whatever the other goroutines do:
  `d` stays out of its loop and adds no operation of its loop to the log (no
  read, no write to the backend, no frame other than the close frame of
  `Shutdown`); the `Lock` of `Shutdown` by `d` and those still ahead add up to
  one; and once `d` has returned it has executed the `Lock` of `Shutdown`
  exactly once and has no statement left.
* If the state can be reached from `NewProxy`, there is a continuation after
  which `d` has returned and the flag `shutdown` is set. -/
theorem io_error_is_fatal (d : Duty) (s s₁ : State) (hc : s.atCall d = true)
    (hs : step (.run d .err) s = some s₁) :
    (s₁.leaving d = true ∧ s₁.locksAhead d = 1) ∧
    (∀ bs s₂, exec bs s₁ = some s₂ →
      s₂.leaving d = true ∧ ownOps d s₂.sh.trace = ownOps d s₁.sh.trace ∧
      locksBy d s₂.sh.trace + s₂.locksAhead d = locksBy d s₁.sh.trace + 1 ∧
      (s₂.returned d = true →
        locksBy d s₂.sh.trace = locksBy d s₁.sh.trace + 1 ∧
        ∀ i, step (.run d i) s₂ = none)) ∧
    (∀ (ics : IcsConn) (ws : WsConn) (p : Proxy) (now : Int) (as : List Action),
      (NewProxy (.ok ics) ws).proxy = some p → exec as (State.init p now) = some s →
      ∃ bs s₂, exec bs s₁ = some s₂ ∧ s₂.returned d = true ∧ s₂.sh.p.shutdown = true) := by
  obtain ⟨h1, h2⟩ := failed_call_leaves d hc hs
  refine ⟨⟨h1, h2⟩, fun bs s₂ hbs => ?_, fun ics ws p now as hp has => ?_⟩
  · obtain ⟨a1, a2, a3⟩ := leaving_exec d h1 hbs
    rw [h2] at a3
    refine ⟨a1, a2, a3, fun hr => ?_⟩
    have h0 : s₂.locksAhead d = 0 ∧ ∀ i, step (.run d i) s₂ = none := by
      cases d <;> simp only [State.returned, decide_eq_true_eq] at hr <;>
        simp [State.locksAhead, hr, KaPc.locksAhead, IcsPc.locksAhead, WsPc.locksAhead, step,
          stepKeepAlive, stepIcsReader, stepWsReader]
    exact ⟨by rw [← a3, h0.1, Nat.add_zero], h0.2⟩
  · have hI : Inv s₁ := Inv_step (Inv_exec (Inv_init ics ws p now hp) has) hs
    obtain ⟨bs, s₂, b1, b2, b3, -⟩ := returns_after_leaving hI d h2 (.ok 0 [])
    exact ⟨bs, s₂, b1, b2, b3⟩

/-- C9, at a concrete input: in a fresh session `wsReader` has passed its
`select` and its `ReadMessage` fails. -/
theorem io_error_is_fatal_witness :
    ∃ s s₁, exec [.run .wsReader (.ok 0 [])] (State.init Proxy.fresh 0) = some s ∧
      s.atCall .wsReader = true ∧ step (.run .wsReader .err) s = some s₁ ∧
      (s₁.leaving .wsReader = true ∧ s₁.locksAhead .wsReader = 1) ∧
      (∀ bs s₂, exec bs s₁ = some s₂ →
        s₂.leaving .wsReader = true ∧
        ownOps .wsReader s₂.sh.trace = ownOps .wsReader s₁.sh.trace ∧
        locksBy .wsReader s₂.sh.trace + s₂.locksAhead .wsReader =
          locksBy .wsReader s₁.sh.trace + 1 ∧
        (s₂.returned .wsReader = true →
          locksBy .wsReader s₂.sh.trace = locksBy .wsReader s₁.sh.trace + 1 ∧
          ∀ i, step (.run .wsReader i) s₂ = none)) ∧
      (∀ (ics : IcsConn) (ws : WsConn) (p : Proxy) (now : Int) (as : List Action),
        (NewProxy (.ok ics) ws).proxy = some p → exec as (State.init p now) = some s →
        ∃ bs s₂, exec bs s₁ = some s₂ ∧ s₂.returned .wsReader = true ∧
          s₂.sh.p.shutdown = true) := by
  obtain ⟨s, hs⟩ : ∃ s, exec [Action.run .wsReader (.ok 0 [])] (State.init Proxy.fresh 0) =
      some s := ⟨_, rfl⟩
  have hc : s.atCall .wsReader = true := by
    have := Option.some.inj hs
    subst this
    rfl
  obtain ⟨s₁, hs₁⟩ : ∃ s₁, step (.run .wsReader .err) s = some s₁ := by
    have := Option.some.inj hs
    subst this
    exact ⟨_, rfl⟩
  exact ⟨s, s₁, hs, hc, hs₁, io_error_is_fatal .wsReader s s₁ hc hs₁⟩

/-! ## Idle-peer detection -/

theorem FakeProbe_step {now0 : Int} {a : Action} {s s' : State} (h : FakeProbe now0 s)
    (hlo : -2 ^ 63 ≤ now0) (hhi : now0 + keepAlive / 2 < 2 ^ 63)
    (ha : a ≠ .pong) (hf : fakeClockAllows a s = true) (hs : step a s = some s') :
    FakeProbe now0 s' := by
  obtain ⟨h0, h1, h2, h3⟩ := h
  have hka : keepAlive / 2 = 40000000000 := by decide
  have hto : timeout = 5000000000 := by decide
  unfold step at hs
  split at hs
  · exact absurd hs (by simp)
  cases a with
  | pong => exact absurd rfl ha
  | tick dt =>
    simp only [Option.some.injEq] at hs
    subst hs
    cases hpc : s.kaPc <;> simp [fakeClockAllows, hpc] at hf
    simp only [hpc] at h3 h2
    subst h3
    exact ⟨by simp only; omega, by simp only; omega, fun _ => h2 (by simp), by simp [hpc]⟩
  | run d i =>
    cases d with
    | icsReader =>
      simp only [Option.map_eq_some'] at hs
      obtain ⟨⟨pc', sh'⟩, hr, rfl⟩ := hs
      obtain ⟨c1, c2⟩ := stepIcsReader_clock hr
      simp only [FakeProbe, c1, c2]
      exact ⟨h0, h1, h2, h3⟩
    | wsReader =>
      simp only [Option.map_eq_some'] at hs
      obtain ⟨⟨pc', sh'⟩, hr, rfl⟩ := hs
      obtain ⟨c1, c2⟩ := stepWsReader_clock hr
      simp only [FakeProbe, c1, c2]
      exact ⟨h0, h1, h2, h3⟩
    | keepAlive =>
      simp only [Option.map_eq_some'] at hs
      obtain ⟨⟨pc', sh'⟩, hr, rfl⟩ := hs
      simp only [FakeProbe]
      cases hpc : s.kaPc with
      | shutdown k =>
        rw [hpc] at hr
        simp only [stepKeepAlive] at hr
        cases hk : stepShutdown .keepAlive k s.sh with
        | none => simp [hk] at hr
        | some r =>
          obtain ⟨k', s''⟩ := r
          obtain ⟨c1, c2⟩ := stepShutdown_clock hk
          have h2' := h2 (by rw [hpc]; simp)
          cases k' <;> simp [hk] at hr <;> obtain ⟨rfl, rfl⟩ := hr <;>
            exact ⟨by rw [c1]; exact h0, by rw [c1]; exact h1, fun _ => by rw [c2]; exact h2',
              trivial⟩
      | start =>
        rw [hpc] at hr h3
        simp only [stepKeepAlive, Option.some.injEq, Prod.mk.injEq] at hr
        obtain ⟨rfl, rfl⟩ := hr
        simp only at h3
        exact ⟨h0, h1, fun _ => by simp only; rw [h3], h3⟩
      | sleep =>
        rw [hpc] at hr h3
        simp only [stepKeepAlive, Option.some.injEq, Prod.mk.injEq] at hr
        obtain ⟨rfl, rfl⟩ := hr
        simp only at h3
        exact ⟨h0, h1, fun _ => h2 (by rw [hpc]; simp), by simp only; rw [h3]⟩
      | sleeping wake =>
        rw [hpc] at hr h3
        simp only [stepKeepAlive] at hr
        simp only at h3
        split at hr
        · simp only [Option.some.injEq, Prod.mk.injEq] at hr
          obtain ⟨rfl, rfl⟩ := hr
          exact ⟨h0, h1, fun _ => h2 (by rw [hpc]; simp), by simp only; omega⟩
        · exact absurd hr (by simp)
      | check =>
        rw [hpc] at hr h3
        simp only at h3
        have h2' := h2 (by rw [hpc]; simp)
        have e1 : UnixNano now0 = now0 := wrapInt64_of_range (by omega) (by omega)
        have e2 : UnixNano (s.sh.now - timeout) = s.sh.now - timeout :=
          wrapInt64_of_range (by omega) (by omega)
        have hlt : s.sh.lastResponse < UnixNano (s.sh.now - timeout) := by
          rw [h2', e1, e2]; omega
        simp [stepKeepAlive, hlt] at hr
        obtain ⟨rfl, rfl⟩ := hr
        exact ⟨h0, h1, fun _ => h2', trivial⟩
      | lock =>
        rw [hpc] at hr h3
        simp only [stepKeepAlive, Lock] at hr
        simp only at h3
        cases hm : s.sh.p.mutex <;> simp [hm, Shared.log] at hr
        obtain ⟨rfl, rfl⟩ := hr
        exact ⟨h0, h1, fun _ => h2 (by rw [hpc]; simp), h3⟩
      | setPongHandler =>
        rw [hpc] at hr h3
        simp only [stepKeepAlive, Option.some.injEq, Prod.mk.injEq] at hr
        obtain ⟨rfl, rfl⟩ := hr
        exact ⟨h0, h1, fun _ => h2 (by rw [hpc]; simp), h3⟩
      | writeMessage =>
        rw [hpc] at hr h3
        simp only [stepKeepAlive, Option.some.injEq, Prod.mk.injEq] at hr
        obtain ⟨rfl, rfl⟩ := hr
        exact ⟨h0, h1, fun _ => h2 (by rw [hpc]; simp), h3⟩
      | done =>
        rw [hpc] at hr
        simp [stepKeepAlive] at hr
      | select =>
        rw [hpc] at hr h3
        simp only [stepKeepAlive] at hr
        have h2' := h2 (by rw [hpc]; simp)
        split at hr <;> simp only [Option.some.injEq, Prod.mk.injEq] at hr <;>
          obtain ⟨rfl, rfl⟩ := hr <;>
          first
            | exact ⟨h0, h1, fun _ => h2', trivial⟩
            | exact ⟨h0, h1, fun _ => h2', h3⟩
      | unlock err =>
        rw [hpc] at hr h3
        simp only [stepKeepAlive] at hr
        have h2' := h2 (by rw [hpc]; simp)
        split at hr <;> simp only [Option.some.injEq, Prod.mk.injEq] at hr <;>
          obtain ⟨rfl, rfl⟩ := hr <;>
          first
            | exact ⟨h0, h1, fun _ => h2', trivial⟩
            | exact ⟨h0, h1, fun _ => h2', h3⟩

theorem FakeProbe_exec {now0 : Int} (hlo : -2 ^ 63 ≤ now0)
    (hhi : now0 + keepAlive / 2 < 2 ^ 63) {as : List Action} {s s' : State}
    (h : FakeProbe now0 s) (ha : Action.pong ∉ as) (hf : onFakeClock as s = true)
    (hs : exec as s = some s') : FakeProbe now0 s' := by
  induction as generalizing s with
  | nil =>
    simp only [exec, Option.some.injEq] at hs
    exact hs ▸ h
  | cons a as ih =>
    simp only [exec] at hs
    simp only [onFakeClock, Bool.and_eq_true] at hf
    cases hstep : step a s with
    | none => simp [hstep] at hs
    | some s₁ =>
      rw [hstep] at hs
      have hf2 := hf.2
      rw [hstep] at hf2
      exact ih (FakeProbe_step h hlo hhi (fun e => ha (e ▸ List.mem_cons_self _ _)) hf.1 hstep)
        (fun m => ha (List.mem_cons_of_mem _ m)) hf2 hs

theorem FakeProbe_init (p : Proxy) (now0 : Int) : FakeProbe now0 (State.init p now0) :=
  ⟨le_refl _, by have : keepAlive / 2 = 40000000000 := by decide
                 simp only [State.init, Shared.init]; omega,
    fun h => absurd rfl h, rfl⟩

/-- C5, amended. Idle-peer detection with an explicit clock, for clock
readings that `UnixNano` can represent as `int64`. Take any execution of a
session from `NewProxy`, created at `now0`, in which no pong is processed,
under any interleaving of the goroutines.
* Whatever the clock does: when `keepAlive` stands at its staleness check,
  `lastResponse` is still its start time `t0`, at least `keepAlive / 2` (40 s)
  have passed since `t0`, the test `lastResponse < now - timeout` succeeds and
  the next statement of `keepAlive` is the call of `Shutdown`; and there is a
  continuation, taking no time, after which `keepAlive` has returned and the
  flag `shutdown` is set.
* On a fake clock, which advances only while `keepAlive` sleeps and not beyond
  the end of the sleep: the probe starts at `t0 = now0`, the clock never
  passes `t0 + keepAlive / 2`, and so never `t0 + keepAlive + timeout` (85 s);
  from the staleness check the session is shut down at a time within that
  bound. -/
theorem probe_detects_idle_peer (ics : IcsConn) (ws : WsConn) (p : Proxy) (now0 : Int)
    (as : List Action) (s : State) (hp : (NewProxy (.ok ics) ws).proxy = some p)
    (hs : exec as (State.init p now0) = some s) (hpong : Action.pong ∉ as)
    (hlo : -2 ^ 63 ≤ now0) :
    (s.kaPc = .check → s.sh.now < 2 ^ 63 →
      (∃ t0, now0 ≤ t0 ∧ s.sh.lastResponse = t0 ∧ t0 + keepAlive / 2 ≤ s.sh.now) ∧
      s.sh.lastResponse < UnixNano (s.sh.now - timeout) ∧
      (∀ i, step (.run .keepAlive i) s = some { s with kaPc := .shutdown .lock }) ∧
      ∃ bs s', exec bs s = some s' ∧ s'.returned .keepAlive = true ∧
        s'.sh.p.shutdown = true ∧ s'.sh.now = s.sh.now) ∧
    (onFakeClock as (State.init p now0) = true → now0 + keepAlive / 2 < 2 ^ 63 →
      (s.kaPc ≠ .start → s.sh.lastResponse = now0) ∧
      s.sh.now ≤ now0 + keepAlive / 2 ∧ s.sh.now ≤ now0 + (keepAlive + timeout) ∧
      (s.kaPc = .check →
        ∃ bs s', exec bs s = some s' ∧ s'.returned .keepAlive = true ∧
          s'.sh.p.shutdown = true ∧ s'.sh.now ≤ now0 + (keepAlive + timeout))) := by
  have hI : Inv s := Inv_exec (Inv_init ics ws p now0 hp) hs
  have hk : s.sh.panicked = false := (hI .keepAlive).noPanic
  have hka : keepAlive / 2 = 40000000000 := by decide
  have hto : timeout = 5000000000 := by decide
  have hsum : keepAlive + timeout = 85000000000 := by decide
  have main : s.kaPc = .check → s.sh.now < 2 ^ 63 →
      (∃ t0, now0 ≤ t0 ∧ s.sh.lastResponse = t0 ∧ t0 + keepAlive / 2 ≤ s.sh.now) ∧
      s.sh.lastResponse < UnixNano (s.sh.now - timeout) ∧
      (∀ i, step (.run .keepAlive i) s = some { s with kaPc := .shutdown .lock }) ∧
      ∃ bs s', exec bs s = some s' ∧ s'.returned .keepAlive = true ∧
        s'.sh.p.shutdown = true ∧ s'.sh.now = s.sh.now := by
    intro hpc hhi
    obtain ⟨-, hU⟩ := Unanswered_exec (Unanswered_init p now0) hpong hs
    obtain ⟨t0, a1, a2, a3, -, a5⟩ := hU (by rw [hpc]; simp)
    have a6 := a5 hpc
    have e1 : UnixNano t0 = t0 := wrapInt64_of_range (by omega) (by omega)
    have e2 : UnixNano (s.sh.now - timeout) = s.sh.now - timeout :=
      wrapInt64_of_range (by omega) (by omega)
    have hlt : s.sh.lastResponse < UnixNano (s.sh.now - timeout) := by
      rw [a3, e1, e2]; omega
    have hstep : ∀ i, step (.run .keepAlive i) s = some { s with kaPc := .shutdown .lock } := by
      intro i
      simp [step, hk, hpc, stepKeepAlive, hlt]
    refine ⟨⟨t0, a1, by rw [a3, e1], a6⟩, hlt, hstep, ?_⟩
    obtain ⟨bs, s', b1, b2, b3, b4⟩ :=
      returns_after_entering (Inv_step hI (hstep (.ok 0 []))) .keepAlive
        (by simp [State.entering]) (.ok 0 [])
    refine ⟨.run .keepAlive (.ok 0 []) :: bs, s', ?_, b2, b3, b4⟩
    simp only [exec, hstep]
    exact b1
  refine ⟨main, fun hf hhi => ?_⟩
  obtain ⟨f0, f1, f2, -⟩ := FakeProbe_exec hlo hhi (FakeProbe_init p now0) hpong hf hs
  have e1 : UnixNano now0 = now0 := wrapInt64_of_range (by omega) (by omega)
  refine ⟨fun h => by rw [f2 h, e1], f1, by omega, fun hpc => ?_⟩
  obtain ⟨-, -, -, bs, s', b1, b2, b3, b4⟩ := main hpc (by omega)
  exact ⟨bs, s', b1, b2, b3, by rw [b4]; omega⟩

/-- C5 amended, at a concrete execution: a session created at time 0 in which
`keepAlive` alone runs up to its first staleness check, on a fake clock that
advances by exactly 40 s during the sleep. -/
theorem probe_detects_idle_peer_witness :
    ∃ s, exec fakeClockProbe (State.init Proxy.fresh 0) = some s ∧
      Action.pong ∉ fakeClockProbe ∧ (-2 ^ 63 : Int) ≤ 0 ∧
      s.kaPc = .check ∧ s.sh.now < 2 ^ 63 ∧
      onFakeClock fakeClockProbe (State.init Proxy.fresh 0) = true ∧
      (0 : Int) + keepAlive / 2 < 2 ^ 63 ∧
      (s.kaPc = .check → s.sh.now < 2 ^ 63 →
        (∃ t0, (0 : Int) ≤ t0 ∧ s.sh.lastResponse = t0 ∧ t0 + keepAlive / 2 ≤ s.sh.now) ∧
        s.sh.lastResponse < UnixNano (s.sh.now - timeout) ∧
        (∀ i, step (.run .keepAlive i) s = some { s with kaPc := .shutdown .lock }) ∧
        ∃ bs s', exec bs s = some s' ∧ s'.returned .keepAlive = true ∧
          s'.sh.p.shutdown = true ∧ s'.sh.now = s.sh.now) ∧
      (onFakeClock fakeClockProbe (State.init Proxy.fresh 0) = true →
        (0 : Int) + keepAlive / 2 < 2 ^ 63 →
        (s.kaPc ≠ .start → s.sh.lastResponse = 0) ∧
        s.sh.now ≤ 0 + keepAlive / 2 ∧ s.sh.now ≤ 0 + (keepAlive + timeout) ∧
        (s.kaPc = .check →
          ∃ bs s', exec bs s = some s' ∧ s'.returned .keepAlive = true ∧
            s'.sh.p.shutdown = true ∧ s'.sh.now ≤ 0 + (keepAlive + timeout))) := by
  obtain ⟨s, hs⟩ : ∃ s, exec fakeClockProbe (State.init Proxy.fresh 0) =
      some s := ⟨_, rfl⟩
  have hpc : s.kaPc = .check := by
    have := Option.some.inj hs
    subst this
    rfl
  have hnow : s.sh.now < 2 ^ 63 := by
    have := Option.some.inj hs
    subst this
    decide
  exact ⟨s, hs, by decide, by decide, hpc, hnow, by decide, by decide,
    probe_detects_idle_peer IcsConn.fresh WsConn.fresh Proxy.fresh 0 _ s rfl hs (by decide)
      (by decide)⟩

end Wsproxy
